import Mathlib

/-!
Verification of the `sod` scripting-language interpreter (lexer, Pratt parser,
tree-walking evaluator over a scoped symbol table).

Shallow embedding conventions:
* Rust `f64` numbers are modelled as `ℚ` (exact arithmetic; every claim below
  only exercises values on which `f64` arithmetic is exact).
* Rust `HashMap` is modelled as an association list with replace-on-insert
  (`insertA`); lookup order of distinct keys is irrelevant to every operation.
* Rust `Vec` used as a stack (push/pop at the end, iteration `.rev()` from the
  end) is modelled as a Lean `List` with the TOP AT THE HEAD: Rust `push` is
  cons, Rust `pop` takes the head, Rust `.iter().rev()` is plain head-to-tail
  order.
* Fallible Rust code (`Result<_, String>`) becomes `Except Err _`; a Rust
  `panic!` / `unwrap` failure / `unimplemented!` is the distinguished
  `Err.panicked` (a process crash, not a user-visible interpreter error), and
  recursion is made total with an explicit fuel argument whose exhaustion is
  the distinguished `Err.fuel` (the real interpreter simply diverges there).
-/

namespace Sod

/-- Error outcome of an interpreter operation: `user` is an ordinary
`Err(String)` surfaced to the user, `panicked` is a Rust panic (process
crash), `fuel` marks exhaustion of the termination budget of the embedding
(the Rust original would diverge or recurse deeper). -/
inductive Err where
  | user (msg : String)
  | panicked (msg : String)
  | fuel
deriving DecidableEq, Repr

/-- Result type of embedded fallible operations. -/
abbrev Res (α : Type) := Except Err α

/-- Decidable equality of results, used to evaluate the embedding on
concrete inputs. -/
instance {α : Type} [DecidableEq α] : DecidableEq (Res α) := fun a b =>
  match a, b with
  | .ok x, .ok y =>
    if h : x = y then .isTrue (by rw [h]) else .isFalse (by simp [h])
  | .error x, .error y =>
    if h : x = y then .isTrue (by rw [h]) else .isFalse (by simp [h])
  | .ok _, .error _ => .isFalse (by simp)
  | .error _, .ok _ => .isFalse (by simp)

/-- Replace-on-insert for an association list, modelling `HashMap::insert`. -/
def insertA {κ α : Type} [DecidableEq κ] (l : List (κ × α)) (k : κ) (v : α) :
    List (κ × α) :=
  (k, v) :: l.filter (fun e => e.1 ≠ k)

/-- Key removal for an association list, modelling `HashMap::remove`. -/
def eraseA {κ α : Type} [DecidableEq κ] (l : List (κ × α)) (k : κ) :
    List (κ × α) :=
  l.filter (fun e => e.1 ≠ k)

/-- Lookup in an association list, modelling `HashMap::get`. -/
def lookupA {κ α : Type} [DecidableEq κ] (l : List (κ × α)) (k : κ) : Option α :=
  match l with
  | [] => none
  | e :: rest => if e.1 = k then some e.2 else lookupA rest k

/-- Models the Rust cast `f64 as usize` (truncation toward zero, saturating
at zero for negative inputs; the claims only exercise small values). -/
def ratToUsize (q : ℚ) : Nat :=
  if q ≤ 0 then 0 else q.floor.toNat

/-- Models `f64::powf` restricted to integer exponents, where it agrees with
exact exponentiation (every claim only exercises integer exponents; for a
non-integer exponent the model returns the junk value 0 and no claim relies
on it). -/
def powQ (a b : ℚ) : ℚ :=
  if b.den = 1 then a ^ b.num else 0

/-- Models the `Display` of an `f64` on integral values ("5", "-4"); the
rendering of non-integral numbers is approximate and no claim depends on it. -/
def numDisplay (q : ℚ) : String :=
  if q.den = 1 then toString q.num else toString q

/-! ## Token model, from `src/lexer/token.rs` -/

/-- Abbreviation for the Lean string type, used for constructor fields of
inductives that themselves declare a constructor named `String` (whose name
would otherwise shadow the type). -/
abbrev Str := String

/-- Quoted-string token payload (`StringToken` in `token.rs`): the text plus
the original quote character. -/
structure StringToken where
  value : String
  quote : Char
deriving DecidableEq, Repr

/-- Token classification (`TokenType` in `token.rs`).  `Integer` carries a
`usize` (here `Nat`), `Decimal` an `f64` (here `ℚ`).  The `TemplateString`
variant is referenced by the snapshot's `parser.rs` although missing from its
`token.rs`; it carries the body of a double-quoted string.  The `String`
constructor is declared last so its name cannot shadow the string type. -/
inductive TokenType where
  | Ampersand | And | AppendOutput | Asterisk | Carat | CloseBraces
  | CloseParen | Comma | Dot | DoubleEquals | EOF | Equals | ForwardSlash
  | Ge | GreaterThan | HereDocument | Le | LessThan | Minus | Newline
  | Not | NotEquals | OpenBraces | OpenParen | Or | Pipe | Plus
  | QuestionMark | SemiColon | SingleQuote | Tilde | Whitespace
  | LineComment
  | Integer (n : Nat)
  | Decimal (d : ℚ)
  | TemplateString (s : Str)
  | Identifier (name : Str)
  | EscapedIdentifier (name : Str)
  | OpenSqBracket | CloseSqBracket | BackSlash
  | CatchAll (s : Str)
  | String (s : StringToken)
deriving DecidableEq, Repr

/-- Display form of a token (`impl Display for TokenType`); only the cases a
claim can reach are rendered faithfully. -/
def TokenType.display : TokenType → Str
  | .Ampersand => "&"
  | .And => "&&"
  | .AppendOutput => ">>"
  | .Asterisk => "*"
  | .Carat => "^"
  | .CloseBraces => "\x7d"
  | .CloseParen => ")"
  | .Comma => ","
  | .Dot => "."
  | .DoubleEquals => "=="
  | .EOF => "EOF"
  | .Equals => "."
  | .ForwardSlash => "/"
  | .Ge => ">="
  | .GreaterThan => ">"
  | .HereDocument => "<<"
  | .Le => "<="
  | .LessThan => "<"
  | .Minus => "-"
  | .Newline => "\n"
  | .Not => "!"
  | .NotEquals => "!="
  | .OpenBraces => "\x7b"
  | .OpenParen => "("
  | .Or => "||"
  | .Pipe => "|"
  | .Plus => "+"
  | .QuestionMark => "?"
  | .SemiColon => ";"
  | .SingleQuote => "'"
  | .Tilde => "~"
  | .Whitespace => " "
  | .LineComment => ""
  | .EscapedIdentifier s => s
  | .Integer i => toString i
  | .Decimal d => numDisplay d
  | .Identifier s => s
  | .String s => String.singleton s.quote ++ s.value ++ String.singleton s.quote
  | .TemplateString s => s
  | .OpenSqBracket => "["
  | .CloseSqBracket => "]"
  | .BackSlash => "\\"
  | .CatchAll s => s

/-- Tokens classified as end-of-line (`TokenType::is_end_line`). -/
def TokenType.is_end_line : TokenType → Bool
  | .EOF | .Newline => true
  | _ => false

/-! ## AST, from `src/ast/ast.rs`

Rust wraps several variants in named structs (`BinaryExpression`,
`IfStatement`, ...); here the fields are inlined into the constructors.
`Iterable` is mutually inductive with `ASTNode` exactly as in the source. -/

/-- Template string segment (`TemplateToken` in `ast.rs`): a literal run or
an interpolated identifier. -/
inductive TemplateToken where
  | Expression (name : String)
  | Literal (s : String)
deriving DecidableEq, Repr

mutual

/-- AST node (`ASTNode` in `ast.rs`).  `RangeExpression` carries start, end
and optional increment; `FunctionStatement` carries name, body and parameter
names; the source field `variable` of `ForStatement` is called `varName`
(`variable` is a Lean keyword).  The `String` and `List` constructors are
declared last so their names cannot shadow the corresponding Lean types. -/
inductive ASTNode where
  | Program (body : List ASTNode)
  | IfStatement (condition : ASTNode) (consequence : ASTNode)
      (alternative : Option ASTNode)
  | BlockStatement (body : List ASTNode)
  | ReturnStatement (expr : ASTNode)
  | ForStatement (varName : Str) (iterable : Iterable) (body : ASTNode)
  | MemberExpression (base : ASTNode) (property : Str)
  | IndexExpression (base : ASTNode) (index : ASTNode)
  | FunctionStatement (name : Str) (body : ASTNode) (args : List Str)
  | CallExpression (base : ASTNode) (args : List ASTNode)
  | VariableExpression (lhs : ASTNode) (rhs : ASTNode)
  | BinaryExpression (left : ASTNode) (operator : TokenType) (right : ASTNode)
  | UnaryExpression (inner : ASTNode)
  | RangeExpression (start : ASTNode) (stop : ASTNode)
      (increment : Option ASTNode)
  | Number (value : ℚ)
  | Boolean (value : Bool)
  | TemplateString (tokens : List TemplateToken)
  | Identifier (name : Str)
  | None
  | Command (tokens : List ASTNode)
  | String (value : Str)
  | List (items : List ASTNode)

/-- Iterable of a for statement (`Iterable` in `ast.rs`). -/
inductive Iterable where
  | RangeExpression (start : ASTNode) (stop : ASTNode)
      (increment : Option ASTNode)
  | Collection (node : ASTNode)

end

/-! ## Runtime values, from `src/symbol/symbol.rs` -/

/-- Runtime range value (`Range` in `symbol.rs`): i32 fields modelled as `ℤ`
(the claims never exercise i32 overflow), with the private iteration cursor
`ticker`.  The source field `end` is called `stop` here (`end` is a Lean
keyword). -/
structure RangeV where
  start : Int
  stop : Int
  increment : Int
  ticker : Int
deriving DecidableEq, Repr

/-- Constructor `Range::new`: the increment defaults to 1 and the cursor
starts at `start`. -/
def RangeV.new (start stop : Int) (increment : Option Int) : RangeV :=
  { start := start, stop := stop, increment := increment.getD 1,
    ticker := start }

/-- One iteration step (`Range::next`): yields the cursor as a number and
advances it by `increment`; yields nothing once `increment>0 ∧ ticker≥end` or
`increment<0 ∧ ticker≤end`. -/
def RangeV.next (r : RangeV) : Option (Int × RangeV) :=
  if r.increment > 0 ∧ r.ticker ≥ r.stop then none
  else if r.increment < 0 ∧ r.ticker ≤ r.stop then none
  else some (r.ticker, { r with ticker := r.ticker + r.increment })

/-- Runtime value (`Symbol` in `symbol.rs`).  `String` wraps the text buffer
of `StringSymbol`; `List` the item vector of `List`; `Object` the property
map; `Function` the fields of the referenced `FunctionStatement`.  The
`String` and `List` constructors are declared last so their names cannot
shadow the corresponding Lean types. -/
inductive Symbol where
  | Number (value : ℚ)
  | Boolean (value : Bool)
  | Range (r : RangeV)
  | None
  | Function (name : Str) (body : ASTNode) (args : List Str)
  | Object (mapping : List (Str × Symbol))
  | String (value : Str)
  | List (items : List Symbol)

/-- Abbreviation for a list of runtime values, usable inside the `Symbol`
namespace where the bare name `List` refers to the `Symbol.List`
constructor. -/
abbrev Symbols := List Symbol

/-- Truthiness (`Symbol::is_truthy`). -/
def Symbol.is_truthy : Symbol → Bool
  | .Number n => n ≠ 0
  | .Boolean b => b
  | .Function _ _ _ => true
  | .String s => s.length > 0
  | .List _ => true
  | .None => false
  | .Range _ => true
  | .Object _ => true

/-- Kind name of a value (`Symbol::kind`). -/
def Symbol.kind : Symbol → Str
  | .Number _ => "number"
  | .Boolean _ => "boolean"
  | .Function _ _ _ => "function"
  | .String _ => "string"
  | .List _ => "list"
  | .None => "none"
  | .Range _ => "range"
  | .Object _ => "object"

mutual

/-- Structural equality of runtime values (`PartialEq` for `Symbol`): a
`Range` is never equal to a `Range` and a `Function` is never equal to a
`Function` (both have constant-`false` `PartialEq` impls in the source);
object maps are compared entrywise (the source compares `HashMap`s as
unordered maps — the orderings produced by this embedding coincide, and no
claim compares objects). -/
def symEq : Symbol → Symbol → Bool
  | .Number a, .Number b => a == b
  | .Boolean a, .Boolean b => a == b
  | .String a, .String b => a == b
  | .List a, .List b => symListEq a b
  | .Range _, .Range _ => false
  | .None, .None => true
  | .Function _ _ _, .Function _ _ _ => false
  | .Object a, .Object b => symPairsEq a b
  | _, _ => false

/-- Elementwise equality of value lists (derived `PartialEq` for `Vec`). -/
def symListEq : List Symbol → List Symbol → Bool
  | [], [] => true
  | a :: as_, b :: bs => symEq a b && symListEq as_ bs
  | _, _ => false

/-- Entrywise equality of property lists. -/
def symPairsEq : List (String × Symbol) → List (String × Symbol) → Bool
  | [], [] => true
  | (k, v) :: as_, (k2, v2) :: bs => k == k2 && symEq v v2 && symPairsEq as_ bs
  | _, _ => false

end

mutual

/-- Display of a value (`impl Display for Symbol`); object rendering (Rust
`Debug` of the map) is approximated and no claim depends on it. -/
def Symbol.display : Symbol → Str
  | .Number n => numDisplay n
  | .Boolean b => toString b
  | .Function n _ _ => "func " ++ n
  | .String s => s
  | .None => "none"
  | .List items => "[" ++ symListDisplay items ++ "]"
  | .Range r =>
      toString r.start ++ ".." ++ toString r.stop ++ ".." ++
        toString r.increment
  | .Object _ => "object"

/-- Debug rendering of the stringified items of a list
(`format!("{:?}", items)` on a `Vec<String>`). -/
def symListDisplay : List Symbol → String
  | [] => ""
  | [s] => "\"" ++ s.display ++ "\""
  | s :: rest => "\"" ++ s.display ++ "\", " ++ symListDisplay rest

end

/-- Process-level globals (`get_global_vars`): the `process` object with the
`argv` string list. -/
def get_global_vars (argv : List String) : List (String × Symbol) :=
  [("process", .Object [("argv", .List (argv.map (fun a => .String a)))])]

/-- Property read on an object (`Object::get`): a missing property yields
`None`. -/
def objGet (mapping : List (String × Symbol)) (key : String) : Symbol :=
  (lookupA mapping key).getD .None

/-! ### Built-in methods of `List`, from `src/symbol/symbol.rs` -/

/-- Method `List::len`. -/
def listLen (items : List Symbol) : Symbol := .Number items.length

/-- Method `List::pop` (`Vec::pop`): yields the last item, if any. -/
def listPop (items : List Symbol) : List Symbol × Option Symbol :=
  match items.getLast? with
  | some last => (items.dropLast, some last)
  | none => (items, none)

/-- Method `List::push`: exactly one argument, appended; returns the new
length. -/
def listPush (items : List Symbol) (args : List Symbol) :
    Res (List Symbol × Symbol) :=
  match args with
  | [a] => .ok (items ++ [a], listLen (items ++ [a]))
  | _ => .error (.user "incorrect number of arguments to push")

/-- Read at an index (`List::get`): out of range is a user error. -/
def listGet (items : List Symbol) (index : Nat) : Res Symbol :=
  match items.get? index with
  | some s => .ok s
  | none => .error (.user "list index out of range")

/-- Method `List::remove`: one numeric argument, cast with `as usize`; the
source guard rejects only `index > len`, so `index = len` passes the guard
and `Vec::remove` panics (a process crash). -/
def listRemove (items : List Symbol) (args : List Symbol) :
    Res (List Symbol × Symbol) :=
  match args with
  | [a] =>
    match a with
    | .Number q =>
      let index := ratToUsize q
      if index > items.length then
        .error (.user "list remove index out of range")
      else
        match items.get? index with
        | some removed => .ok (items.eraseIdx index, removed)
        | none => .error (.panicked "Vec::remove: index out of bounds")
    | _ => .error (.user "list indexes must be of type number")
  | _ => .error (.user "incorrect number of arguments to remove")

/-- Method `List::insert`: two arguments, numeric index within `[0, len]`,
value inserted at the index (`Vec::insert`). -/
def listInsert (items : List Symbol) (args : List Symbol) :
    Res (List Symbol) :=
  match args with
  | [a, b] =>
    match a with
    | .Number q =>
      let index := ratToUsize q
      if index > items.length then
        .error (.user "list insert index out of range")
      else
        .ok (items.take index ++ b :: items.drop index)
    | _ => .error (.user "list indexes must be of type number")
  | _ => .error (.user "expected 2 arguments to insert, found other")

/-- Method `List::contains`: one argument, membership via `PartialEq`. -/
def listContains (items : List Symbol) (args : List Symbol) : Res Symbol :=
  match args with
  | [a] => .ok (.Boolean (items.any (fun x => symEq x a)))
  | _ => .error (.user "expected 1 arguments to contains, found other")

/-- Method dispatch on a list receiver (`List::call`). -/
def listCall (items : List Symbol) (fname : String) (args : List Symbol) :
    Res (List Symbol × Option Symbol) :=
  if fname = "len" then .ok (items, some (listLen items))
  else if fname = "pop" then
    let (items2, popped) := listPop items
    .ok (items2, popped)
  else if fname = "push" then do
    let (items2, res) ← listPush items args
    return (items2, some res)
  else if fname = "remove" then do
    let (items2, res) ← listRemove items args
    return (items2, some res)
  else if fname = "contains" then do
    let res ← listContains items args
    return (items, some res)
  else if fname = "insert" then do
    let items2 ← listInsert items args
    return (items2, none)
  else .error (.user ("list has no member '" ++ fname ++ "'"))

/-! ### Built-in methods of `StringSymbol`, from `src/symbol/symbol.rs`

The source works with byte indices/lengths but reads characters with
`chars().nth`; on the ASCII values the claims exercise the two coincide, and
the embedding uses the character list of the string throughout. -/

/-- Indexed read (`StringSymbol::get`): the character at the index as a
one-character string. -/
def strGet (s : String) (index : Nat) : Res Symbol :=
  match s.data.get? index with
  | some c => .ok (.String (String.singleton c))
  | none => .error (.user "string index out of range")

/-- Method `StringSymbol::len`. -/
def strLen (s : String) : Symbol := .Number s.length

/-- Method `StringSymbol::insert`: numeric index within `[0, len]`, string
payload spliced in (`String::insert_str`). -/
def strInsert (s : String) (args : List Symbol) : Res String :=
  match args with
  | [a, b] =>
    match a with
    | .Number q =>
      let index := ratToUsize q
      if index > s.length then
        .error (.user "string insert index out of range")
      else
        match b with
        | .String t =>
            .ok ⟨s.data.take index ++ t.data ++ s.data.drop index⟩
        | _ => .error (.user "can only insert string into a string")
    | _ => .error (.user "string indexes must be of type number")
  | _ => .error (.user "expected 2 arguments to insert, found other")

/-- Method `StringSymbol::remove`: numeric index; the guard rejects only
`index > len`, so `index = len` passes and `String::remove` panics. -/
def strRemove (s : String) (args : List Symbol) : Res (String × Symbol) :=
  match args with
  | [a] =>
    match a with
    | .Number q =>
      let index := ratToUsize q
      if index > s.length then
        .error (.user "string remove index out of range")
      else
        match s.data.get? index with
        | some c =>
            .ok (⟨s.data.take index ++ s.data.drop (index + 1)⟩,
              .String (String.singleton c))
        | none => .error (.panicked "String::remove: index out of bounds")
    | _ => .error (.user "string indexes must be of type number")
  | _ => .error (.user "incorrect number of arguments to remove")

/-- Method `StringSymbol::pop`: removes and yields the last character. -/
def strPop (s : String) : String × Option Symbol :=
  match s.data.getLast? with
  | some c => (⟨s.data.dropLast⟩, some (.String (String.singleton c)))
  | none => (s, none)

/-- Method `StringSymbol::push`: one string argument appended; returns the
new length. -/
def strPush (s : String) (args : List Symbol) : Res (String × Symbol) :=
  match args with
  | [a] =>
    match a with
    | .String t => .ok (s ++ t, strLen (s ++ t))
    | _ => .error (.user "can only add a string to a string")
  | _ => .error (.user "incorrect number of arguments to push")

/-- Method `StringSymbol::trim`: yields the trimmed copy (the receiver is not
modified). -/
def strTrim (s : String) : Symbol := .String s.trim

/-- Substring test used by `StringSymbol::contains`. -/
def listIsInfixOf : List Char → List Char → Bool
  | needle, [] => needle.isEmpty
  | needle, c :: rest =>
      (needle.isPrefixOf (c :: rest)) || listIsInfixOf needle rest

/-- Method `StringSymbol::contains`: one string argument, substring test. -/
def strContains (s : String) (args : List Symbol) : Res Symbol :=
  match args with
  | [a] =>
    match a with
    | .String t => .ok (.Boolean (listIsInfixOf t.data s.data))
    | _ => .error (.user "string contains expected a string")
  | _ => .error (.user "expected 1 arguments to contains, found other")

/-- Method dispatch on a string receiver (`StringSymbol::call`); note the
source's string table has no `contains` entry even though the method exists. -/
def strCall (s : String) (fname : String) (args : List Symbol) :
    Res (String × Option Symbol) :=
  if fname = "insert" then do
    let s2 ← strInsert s args
    return (s2, none)
  else if fname = "remove" then do
    let (s2, res) ← strRemove s args
    return (s2, some res)
  else if fname = "pop" then
    let (s2, popped) := strPop s
    .ok (s2, popped)
  else if fname = "len" then .ok (s, some (strLen s))
  else if fname = "push" then do
    let (s2, res) ← strPush s args
    return (s2, some res)
  else if fname = "trim" then .ok (s, some (strTrim s))
  else .error (.user ("string has no member '" ++ fname ++ "'"))

/-- Method dispatch on any receiver (`Symbol::call`): only lists and strings
have methods; the receiver is returned alongside (it is mutated in place in
the source). -/
def Symbol.callMethod (s : Symbol) (fname : Str) (args : Symbols) :
    Res (Symbol × Option Symbol) :=
  match s with
  | .List items => do
    let (items2, res) ← listCall items fname args
    return (.List items2, res)
  | .String str => do
    let (s2, res) ← strCall str fname args
    return (.String s2, res)
  | _ => .error (.user (s.kind ++ " has no member " ++ fname))

/-! ### Value-level binary operators, from `src/symbol/symbol.rs` -/

/-- Ordering comparison on same-variant operands (`compare_relational` /
`compare_literal`): numbers numerically, booleans with `false < true`,
strings lexicographically. -/
def compare_relational (left : Symbol) (op : TokenType) (right : Symbol) :
    Res Bool :=
  match left, right with
  | .Number lv, .Number rv =>
    match op with
    | .GreaterThan => .ok (decide (lv > rv))
    | .LessThan => .ok (decide (lv < rv))
    | .Ge => .ok (decide (lv ≥ rv))
    | .Le => .ok (decide (lv ≤ rv))
    | _ => .error (.user "unable to compare literals")
  | .Boolean lv, .Boolean rv =>
    match op with
    | .GreaterThan => .ok (lv && !rv)
    | .LessThan => .ok (!lv && rv)
    | .Ge => .ok (lv || !rv)
    | .Le => .ok (!lv || rv)
    | _ => .error (.user "unable to compare literals")
  | .String lv, .String rv =>
    match op with
    | .GreaterThan => .ok (decide (rv < lv))
    | .LessThan => .ok (decide (lv < rv))
    | .Ge => .ok (! decide (lv < rv))
    | .Le => .ok (! decide (rv < lv))
    | _ => .error (.user "unable to compare literals")
  | _, _ => .error (.user "type mismatch in comparison")

/-- Value-level binary operator table (`eval_binary_expression` in
`symbol.rs`).  Note `&&` yields the right operand as-is and `||` yields the
left operand if truthy, else the right — the evaluator has already applied
the short-circuit rules before calling this. -/
def symBinaryOp (left : Symbol) (operator : TokenType) (right : Symbol) :
    Res Symbol :=
  match operator with
  | .Plus =>
    match left, right with
    | .Number lv, .Number rv => .ok (.Number (lv + rv))
    | .String lv, .String rv => .ok (.String (lv ++ rv))
    | _, _ => .error (.user "unsupported operand type for +")
  | .Minus =>
    match left, right with
    | .Number lv, .Number rv => .ok (.Number (lv - rv))
    | _, _ => .error (.user "unsupported operand type for -")
  | .Asterisk =>
    match left, right with
    | .Number lv, .Number rv => .ok (.Number (lv * rv))
    | _, _ => .error (.user "unsupported operand type for *")
  | .ForwardSlash =>
    match left, right with
    | .Number lv, .Number rv => .ok (.Number (lv / rv))
    | _, _ => .error (.user "unsupported operand type for /")
  | .Carat =>
    match left, right with
    | .Number lv, .Number rv => .ok (.Number (powQ lv rv))
    | _, _ => .error (.user "can't raise the power of non-number")
  | .DoubleEquals => .ok (.Boolean (symEq left right))
  | .NotEquals => .ok (.Boolean (! symEq left right))
  | .And => .ok right
  | .Or => if left.is_truthy then .ok left else .ok right
  | .GreaterThan | .LessThan | .Ge | .Le => do
    let b ← compare_relational left operator right
    return .Boolean b
  | _ => .error (.user "unsupported operator")

/-! ## Scope stack, from `src/symbol/scope.rs`

The snapshot's `ScopeKind` enum lacks the `ForBlock` variant although
`evaluator.rs` uses it (the snapshot is missing the crate root, so part of the
real module is absent).  `ForBlock` is therefore included here.
Modelled from the spec: "`push(ConditionalBlock)` or `push(ForBlock)` —
append a frame to the current inner stack". -/

/-- Kind of a scope frame (`ScopeKind`). -/
inductive ScopeKind where
  | Global
  | FunctionBlock
  | ConditionalBlock
  | ForBlock
deriving DecidableEq, Repr

/-- Scope frame (`Scope`): integer identity plus kind. -/
structure Scope where
  id : Nat
  kind : ScopeKind
deriving DecidableEq, Repr

/-- The fixed id of the global frame (`GLOBAL_SCOPE_ID`). -/
def GLOBAL_SCOPE_ID : Nat := 0

/-- Stack of per-activation frame stacks (`ScopeStack`): the outer list has
one entry per function activation, the inner list the activation's frames.
Both lists keep the most recently pushed element at the HEAD (Rust pushes and
pops at the end of a `Vec`). -/
structure ScopeStack where
  scope : List (List Scope)
  counter : Nat
deriving DecidableEq, Repr

/-- Initial scope stack (`ScopeStack::new`): a single activation holding only
the global frame. -/
def ScopeStack.new : ScopeStack :=
  { scope := [[{ id := GLOBAL_SCOPE_ID, kind := .Global }]],
    counter := GLOBAL_SCOPE_ID + 1 }

/-- The current activation's frames (`curr_stack`), innermost first. -/
def ScopeStack.curr_stack (ss : ScopeStack) : List Scope :=
  ss.scope.headD []

/-- The innermost frame (`curr`); `none` where Rust would panic on an empty
stack (unreachable from the evaluator). -/
def ScopeStack.curr (ss : ScopeStack) : Option Scope :=
  ss.curr_stack.head?

/-- Push of a whole new activation (`push_scope_stack`): a fresh inner stack
`[Global, new-frame]` begins, creating the function barrier; yields the fresh
frame id. -/
def ScopeStack.push_scope_stack (ss : ScopeStack) (kind : ScopeKind) :
    Nat × ScopeStack :=
  let id := ss.counter
  (id, { ss with scope :=
    [{ id := id, kind := kind }, { id := GLOBAL_SCOPE_ID, kind := .Global }]
      :: ss.scope })

/-- Push of a single frame onto the current activation (`push_scope`); on an
empty outer stack Rust panics (unreachable), modelled as a no-op. -/
def ScopeStack.push_scope (ss : ScopeStack) (kind : ScopeKind) :
    Nat × ScopeStack :=
  let id := ss.counter
  match ss.scope with
  | [] => (id, ss)
  | stack :: outer =>
    (id, { ss with scope := ({ id := id, kind := kind } :: stack) :: outer })

/-- Frame push dispatch (`ScopeStack::push`): conditional and for frames go
onto the current activation, a function frame starts a new activation;
pushing another global frame is forbidden (Rust panics; modelled as a no-op,
never invoked by the evaluator).  The id counter advances in every
reachable case. -/
def ScopeStack.push (ss : ScopeStack) (kind : ScopeKind) : Nat × ScopeStack :=
  let (id, ss2) :=
    match kind with
    | .ConditionalBlock => ss.push_scope kind
    | .ForBlock => ss.push_scope kind
    | .FunctionBlock => ss.push_scope_stack kind
    | .Global => (ss.counter, ss)
  match kind with
  | .Global => (id, ss2)
  | _ => (id, { ss2 with counter := ss2.counter + 1 })

/-- Frame pop (`ScopeStack::pop`): removes the innermost frame; if the
remaining activation of a non-root entry holds only the global sentinel, the
whole activation is removed (end of the function call).  The id counter is
decremented.  Yields `none` in the states where Rust panics (empty stacks,
unreachable from the evaluator). -/
def ScopeStack.pop (ss : ScopeStack) : Option Scope × ScopeStack :=
  match ss.scope with
  | [] => (none, ss)
  | stack :: outer =>
    match stack with
    | [] => (none, ss)
    | popped :: restStack =>
      let scope1 := restStack :: outer
      let scope2 :=
        if scope1.length > 1 then
          match restStack.head? with
          | some sc => if sc.kind = .Global then outer else scope1
          | none => scope1
        else scope1
      (some popped, { scope := scope2, counter := ss.counter - 1 })

/-! ## Symbol table, from `src/symbol/table.rs` -/

/-- Bindings of one frame: a name-to-value map. -/
abbrev Bindings := List (String × Symbol)

/-- Scoped symbol table (`SymbolTable`): flat frame-id-keyed storage plus the
scope stack. -/
structure SymbolTable where
  scoped_table : List (Nat × Bindings)
  scope : ScopeStack

/-- Innermost-first search of the active inner stack (`SymbolTable::find`):
yields the owning frame id and the bound value of the first frame that binds
the name. -/
def SymbolTable.find (st : SymbolTable) (name : String) :
    Option (Nat × Symbol) :=
  go st.scope.curr_stack
where
  /-- Walk of the activation's frames, innermost first. -/
  go : List Scope → Option (Nat × Symbol)
  | [] => none
  | sc :: rest =>
    match (lookupA st.scoped_table sc.id).bind
        (fun frame => lookupA frame name) with
    | some s => some (sc.id, s)
    | none => go rest

/-- Name lookup (`SymbolTable::get`). -/
def SymbolTable.get (st : SymbolTable) (name : String) : Option Symbol :=
  match st.find name with
  | some (_, s) => some s
  | none => none

/-- Rebinding of `name` to `v` inside the frame map of frame `id`; a missing
frame id leaves the table unchanged (Rust panics there; unreachable, every
pushed frame has an entry). -/
def writeBinding (tbl : List (Nat × Bindings)) (id : Nat) (name : String)
    (v : Symbol) : List (Nat × Bindings) :=
  tbl.map (fun e => if e.1 = id then (e.1, insertA e.2 name v) else e)

/-- Assignment (`SymbolTable::set`): a name already bound somewhere in the
active inner stack is updated in place in its owning frame; an unbound name
is inserted into the innermost (current) frame. -/
def SymbolTable.set (st : SymbolTable) (name : String) (v : Symbol) :
    SymbolTable :=
  match st.find name with
  | some (id, _) =>
    { st with scoped_table := writeBinding st.scoped_table id name v }
  | none =>
    match st.scope.curr with
    | some sc =>
      { st with scoped_table := writeBinding st.scoped_table sc.id name v }
    | none => st

/-- Frame push (`SymbolTable::push_scope`): push on the scope stack and
create the fresh frame's empty binding map. -/
def SymbolTable.push_scope (st : SymbolTable) (kind : ScopeKind) :
    SymbolTable :=
  let (id, ss) := st.scope.push kind
  { scoped_table := insertA st.scoped_table id [], scope := ss }

/-- Frame pop (`SymbolTable::pop_scope`): pop the scope stack and drop the
popped frame's binding map. -/
def SymbolTable.pop_scope (st : SymbolTable) : SymbolTable :=
  let (popped, ss) := st.scope.pop
  match popped with
  | some sc => { scoped_table := eraseA st.scoped_table sc.id, scope := ss }
  | none => { st with scope := ss }

/-- Construction from the global variables (`SymbolTable::from`): a fresh
table holding only the empty global frame, then each global is `set`. -/
def SymbolTable.fromGlobals (globals : List (String × Symbol)) : SymbolTable :=
  globals.foldl (fun st kv => st.set kv.1 kv.2)
    { scoped_table := [(GLOBAL_SCOPE_ID, [])], scope := ScopeStack.new }

/-- Initial evaluator state (`ASTEvaluator::new`): the symbol table seeded
with the process globals. -/
def initState (argv : List String) : SymbolTable :=
  SymbolTable.fromGlobals (get_global_vars argv)

/-! ## Evaluator, from `src/ast/evaluator.rs`

The evaluator threads the symbol table explicitly (`&mut self` in the
source).  A Rust `&mut Symbol` obtained through `get_mut` chains is modelled
as a `MutLoc` — the frame/name (and optional object property) the borrow
points into — together with the value currently stored there; a mutation is
performed by `writeLoc` writing the updated value back to that location.
Recursion carries a fuel argument; every function maps fuel 0 to `Err.fuel`
and passes the predecessor to callees. -/

/-- Target of a resolved mutable borrow: binding `name` in frame `frame`,
optionally narrowed to object property `prop`. -/
structure MutLoc where
  frame : Nat
  name : String
  prop : Option String
deriving DecidableEq, Repr

/-- Outcome of `visit_node_mut` (`SymbolRef` in the source): a mutable borrow
into the symbol table (with the value it currently holds) or a detached
value. -/
inductive SymbolRef where
  | MutRef (loc : MutLoc) (cur : Symbol)
  | Value (s : Symbol)

/-- Write-back through a resolved mutable borrow: rebinds the name in its
frame, or updates the object property the borrow was narrowed to.  The
fallback cases are unreachable (the location was resolved from the same
table). -/
def writeLoc (st : SymbolTable) (loc : MutLoc) (v : Symbol) : SymbolTable :=
  match loc.prop with
  | none =>
    { st with scoped_table := writeBinding st.scoped_table loc.frame loc.name v }
  | some p =>
    match (lookupA st.scoped_table loc.frame).bind
        (fun frame => lookupA frame loc.name) with
    | some (.Object o) =>
      { st with scoped_table :=
          (writeBinding st.scoped_table loc.frame loc.name
            (.Object (insertA o p v))) }
    | _ => st

/-- Name resolution with the user-visible error (`ASTEvaluator::get_symbol`):
an unbound name reports `'name' is not defined`. -/
def get_symbol (st : SymbolTable) (name : String) : Res Symbol :=
  match st.get name with
  | some s => .ok s
  | none => .error (.user ("'" ++ name ++ "' is not defined"))

/-- Mutable name resolution (`ASTEvaluator::get_symbol_mut`): the borrow
location plus the value currently bound. -/
def get_symbol_mut (st : SymbolTable) (name : String) :
    Res (MutLoc × Symbol) :=
  match st.find name with
  | some (id, s) => .ok ({ frame := id, name := name, prop := none }, s)
  | none => .error (.user ("'" ++ name ++ "' is not defined"))

/-- Member read (`visit_member_expression`): only an identifier base bound to
an object is supported; a missing property yields `None`. -/
def visit_member_expression (st : SymbolTable) (base : ASTNode)
    (property : String) : Res Symbol :=
  match base with
  | .Identifier ident =>
    match get_symbol st ident with
    | .error e => .error e
    | .ok s =>
      match s with
      | .Object obj => .ok (objGet obj property)
      | _ => .error (.user (s.kind ++ " has no property " ++ property))
  | _ => .error (.panicked "unimplemented: TODO")

/-- Mutable member resolution (`visit_member_expression_mut`): the source
calls `Object::get_mut` which unwraps, so a missing property is a panic. -/
def visit_member_expression_mut (st : SymbolTable) (base : ASTNode)
    (property : String) : Res (MutLoc × Symbol) :=
  match base with
  | .Identifier ident =>
    match get_symbol_mut st ident with
    | .error e => .error e
    | .ok (loc, s) =>
      match s with
      | .Object obj =>
        match lookupA obj property with
        | some v => .ok ({ loc with prop := some property }, v)
        | none => .error (.panicked "Object::get_mut: missing property")
      | _ => .error (.user (s.kind ++ " has no property " ++ property))
  | _ => .error (.panicked "unimplemented: object not supported")

/-- Template-string evaluation (`visit_template_string`): literal segments
pass through, interpolations resolve in the current scope and stringify. -/
def visit_template_string (st : SymbolTable) :
    List TemplateToken → String → Res Symbol
  | [], acc => .ok (.String acc)
  | tok :: rest, acc =>
    match tok with
    | .Expression expr =>
      match get_symbol st expr with
      | .ok s => visit_template_string st rest (acc ++ s.display)
      | .error e => .error e
    | .Literal s => visit_template_string st rest (acc ++ s)

/-- Models the Rust cast `f64 as i32` (truncation toward zero; i32
saturation is not modelled, no claim exercises values outside i32 range). -/
def ratTrunc (q : ℚ) : Int :=
  if q < 0 then -((-q).floor) else q.floor

/-- Coercion of an evaluated range property to an `i32` (the inner closure of
`visit_range_expression`). -/
def asRangeProp (o : Option Symbol) (label : String) : Res Int :=
  match o with
  | some s =>
    match s with
    | .Number num => .ok (ratTrunc num)
    | _ => .error (.user ("range " ++ label ++ " must be a number, found " ++
        s.kind))
  | none => .error (.user "invalid range")

/-- Materialization of a range's iteration sequence (`Range` as an
`Iterator`): `none` when the fuel budget is insufficient (the source would
keep iterating; with `increment = 0` it diverges). -/
def rangeIterOpt : Nat → RangeV → Option (List Symbol)
  | 0, r =>
    match r.next with
    | none => some []
    | some _ => none
  | fuel + 1, r =>
    match r.next with
    | none => some []
    | some (v, r2) =>
      (rangeIterOpt fuel r2).map (fun rest => Symbol.Number (v : ℚ) :: rest)

/-- Character iteration of a string (`StringSymbolIterator`); the source
mixes byte length with `chars().nth` and panics on non-ASCII strings, which
no claim exercises — ASCII behaviour is character-by-character. -/
def strIterSyms (s : String) : List Symbol :=
  s.data.map (fun c => .String (String.singleton c))

/-- Binding of evaluated arguments to parameter names, in order (the loop at
the end of `push_function`). -/
def setAll (st : SymbolTable) : List (String × Symbol) → SymbolTable
  | [] => st
  | (n, v) :: rest => setAll (st.set n v) rest

mutual

/-- Statement-list evaluation (the loop of `ASTEvaluator::eval`): one
optional value per statement. -/
def evalLines (runCmd : String → String) :
    Nat → SymbolTable → List ASTNode → Res (SymbolTable × List (Option Symbol))
  | 0, _, _ => .error .fuel
  | _fuel + 1, st, [] => .ok (st, [])
  | fuel + 1, st, node :: rest => do
    let (st1, o) ← evalNode runCmd fuel st node
    let (st2, os) ← evalLines runCmd fuel st1 rest
    return (st2, o :: os)

/-- Node dispatch (`ASTEvaluator::eval_node`). -/
def evalNode (runCmd : String → String) :
    Nat → SymbolTable → ASTNode → Res (SymbolTable × Option Symbol)
  | 0, _, _ => .error .fuel
  | fuel + 1, st, node =>
    match node with
    | .BinaryExpression l op r => eval_binary_expression runCmd fuel st l op r
    | .UnaryExpression n => eval_unary_expression runCmd fuel st n
    | .VariableExpression lhs rhs => do
      let st2 ← eval_variable_expression runCmd fuel st lhs rhs
      return (st2, none)
    | .MemberExpression base prop => do
      let s ← visit_member_expression st base prop
      return (st, some s)
    | .IndexExpression base idx => do
      let (st2, s) ← visit_index_expression runCmd fuel st base idx
      return (st2, some s)
    | .FunctionStatement name body args =>
      .ok (st.set name (.Function name body args), none)
    | .CallExpression base args => do
      let (st2, s) ← eval_call_expression runCmd fuel st base args
      return (st2, some s)
    | .IfStatement c q a => do
      let st2 ← eval_if_statement runCmd fuel st c q a
      return (st2, none)
    | .BlockStatement body => do
      let (st2, s) ← eval_block_statement runCmd fuel st body
      return (st2, some s)
    | .ReturnStatement expr => evalNode runCmd fuel st expr
    | .ForStatement v it body => do
      let st2 ← eval_for_statement runCmd fuel st v it body
      return (st2, none)
    | .Number v => .ok (st, some (.Number v))
    | .Boolean v => .ok (st, some (.Boolean v))
    | .String v => .ok (st, some (.String v))
    | .TemplateString ts => do
      let s ← visit_template_string st ts ""
      return (st, some s)
    | .List nodes => do
      let (st2, s) ← eval_list runCmd fuel st nodes
      return (st2, some s)
    | .None => .ok (st, some .None)
    | .RangeExpression s e inc => do
      let (st2, r) ← visit_range_expression runCmd fuel st s e inc
      return (st2, some (.Range r))
    | .Command cmd => do
      let (st2, s) ← eval_command runCmd fuel st cmd ""
      return (st2, some s)
    | .Identifier ident => do
      let s ← get_symbol st ident
      return (st, some s)
    | .Program _ => .ok (st, none)

/-- Mutable node resolution (`visit_node_mut`): member expressions and
identifiers resolve to borrows, call expressions to detached values. -/
def visit_node_mut (runCmd : String → String) :
    Nat → SymbolTable → ASTNode → Res (SymbolTable × SymbolRef)
  | 0, _, _ => .error .fuel
  | fuel + 1, st, node =>
    match node with
    | .MemberExpression base prop => do
      let (loc, cur) ← visit_member_expression_mut st base prop
      return (st, .MutRef loc cur)
    | .Identifier ident => do
      let (loc, cur) ← get_symbol_mut st ident
      return (st, .MutRef loc cur)
    | .CallExpression base args => do
      let (st2, s) ← eval_call_expression runCmd fuel st base args
      return (st2, .Value s)
    | _ => .error (.user "not mutable")

/-- Range-expression evaluation (`visit_range_expression`): start, end and
optional increment are evaluated in order and must be numbers. -/
def visit_range_expression (runCmd : String → String) :
    Nat → SymbolTable → ASTNode → ASTNode → Option ASTNode →
      Res (SymbolTable × RangeV)
  | 0, _, _, _, _ => .error .fuel
  | fuel + 1, st, startN, stopN, incN => do
    let (st1, o1) ← evalNode runCmd fuel st startN
    let start ← asRangeProp o1 "start"
    let (st2, o2) ← evalNode runCmd fuel st1 stopN
    let stop ← asRangeProp o2 "end"
    match incN with
    | some n => do
      let (st3, o3) ← evalNode runCmd fuel st2 n
      let inc ← asRangeProp o3 "increment"
      return (st3, RangeV.new start stop (some inc))
    | none => return (st2, RangeV.new start stop none)

/-- Iterable evaluation (`visit_iterable`), materialized to the visited
item list; insufficient fuel for a range is `Err.fuel`. -/
def visit_iterable (runCmd : String → String) :
    Nat → SymbolTable → Iterable → Res (SymbolTable × List Symbol)
  | 0, _, _ => .error .fuel
  | fuel + 1, st, iterable =>
    match iterable with
    | .RangeExpression s e i => do
      let (st2, r) ← visit_range_expression runCmd fuel st s e i
      match rangeIterOpt fuel r with
      | some items => .ok (st2, items)
      | none => .error .fuel
    | .Collection node => do
      let (st2, o) ← evalNode runCmd fuel st node
      match o with
      | some s =>
        match s with
        | .List items => .ok (st2, items)
        | .String str => .ok (st2, strIterSyms str)
        | .Range r =>
          match rangeIterOpt fuel r with
          | some items => .ok (st2, items)
          | none => .error .fuel
        | _ => .error (.user (s.kind ++ " is not iterable"))
      | none => .error (.user "iterator not found")

/-- For-statement evaluation (`eval_for_statement`): materialize the
iterable, push a `ForBlock` frame, run the body once per item (the body's
value — including a `ReturnStatement`'s — is DISCARDED and the loop
continues), pop the frame. -/
def eval_for_statement (runCmd : String → String) :
    Nat → SymbolTable → String → Iterable → ASTNode → Res SymbolTable
  | 0, _, _, _, _ => .error .fuel
  | fuel + 1, st, v, iterable, body => do
    let (st1, items) ← visit_iterable runCmd fuel st iterable
    let st2 := st1.push_scope .ForBlock
    let st3 ← forIter runCmd fuel st2 v items body
    return st3.pop_scope

/-- The iteration loop inside `eval_for_statement`. -/
def forIter (runCmd : String → String) :
    Nat → SymbolTable → String → List Symbol → ASTNode → Res SymbolTable
  | 0, _, _, _, _ => .error .fuel
  | _fuel + 1, st, _, [], _ => .ok st
  | fuel + 1, st, v, item :: rest, body => do
    let st1 := st.set v item
    let (st2, _) ← evalNode runCmd fuel st1 body
    forIter runCmd fuel st2 v rest body

/-- Argument evaluation (`visit_function_args`): each argument node must
produce a value. -/
def visit_function_args (runCmd : String → String) :
    Nat → SymbolTable → List ASTNode → Res (SymbolTable × List Symbol)
  | 0, _, _ => .error .fuel
  | _fuel + 1, st, [] => .ok (st, [])
  | fuel + 1, st, node :: rest => do
    let (st1, o) ← evalNode runCmd fuel st node
    match o with
    | some s => do
      let (st2, syms) ← visit_function_args runCmd fuel st1 rest
      return (st2, s :: syms)
    | none => .error (.user "TODO: handle None type")

/-- List-literal evaluation (`eval_list`). -/
def eval_list (runCmd : String → String) :
    Nat → SymbolTable → List ASTNode → Res (SymbolTable × Symbol)
  | 0, _, _ => .error .fuel
  | _fuel + 1, st, [] => .ok (st, .List [])
  | fuel + 1, st, node :: rest => do
    let (st1, o) ← evalNode runCmd fuel st node
    match o with
    | some s => do
      let (st2, tail) ← eval_list runCmd fuel st1 rest
      match tail with
      | .List items => return (st2, .List (s :: items))
      | _ => return (st2, tail)
    | none => .error (.user "invalid expression in list")

/-- Command evaluation (`eval_command`): the fragments' stringified values
are concatenated (a fragment producing no value contributes nothing), the
command line is run through the shell bridge `runCmd` and stdout is the
resulting string.  The accumulator argument is the command line built so
far. -/
def eval_command (runCmd : String → String) :
    Nat → SymbolTable → List ASTNode → String → Res (SymbolTable × Symbol)
  | 0, _, _, _ => .error .fuel
  | _fuel + 1, st, [], acc => .ok (st, .String (runCmd acc))
  | fuel + 1, st, node :: rest, acc => do
    let (st1, o) ← evalNode runCmd fuel st node
    match o with
    | some sym => eval_command runCmd fuel st1 rest (acc ++ sym.display)
    | none => eval_command runCmd fuel st1 rest acc

/-- Block-statement evaluation (`eval_block_statement`): children run in
order; a `ReturnStatement` that is a DIRECT child yields its value and stops
the block; any other child's value is discarded; falling off the end yields
`None`. -/
def eval_block_statement (runCmd : String → String) :
    Nat → SymbolTable → List ASTNode → Res (SymbolTable × Symbol)
  | 0, _, _ => .error .fuel
  | _fuel + 1, st, [] => .ok (st, .None)
  | fuel + 1, st, node :: rest =>
    match node with
    | .ReturnStatement expr => do
      let (st2, o) ← evalNode runCmd fuel st expr
      match o with
      | some s => .ok (st2, s)
      | none => .ok (st2, .None)
    | _ => do
      let (st2, _) ← evalNode runCmd fuel st node
      eval_block_statement runCmd fuel st2 rest

/-- If-statement evaluation (`eval_if_statement`): a truthy condition runs
the consequence in a fresh `ConditionalBlock` frame, otherwise the
alternative (if any) runs in a fresh frame; the branch value is DISCARDED. -/
def eval_if_statement (runCmd : String → String) :
    Nat → SymbolTable → ASTNode → ASTNode → Option ASTNode → Res SymbolTable
  | 0, _, _, _, _ => .error .fuel
  | fuel + 1, st, cond, cons, alt => do
    let (st1, o) ← evalNode runCmd fuel st cond
    let passed := match o with
      | some s => s.is_truthy
      | none => false
    if passed then do
      let st2 := st1.push_scope .ConditionalBlock
      let (st3, _) ← evalNode runCmd fuel st2 cons
      return st3.pop_scope
    else
      match alt with
      | some a => do
        let st2 := st1.push_scope .ConditionalBlock
        let (st3, _) ← evalNode runCmd fuel st2 a
        return st3.pop_scope
      | none => return st1

/-- Activation setup (`push_function`): evaluate the arguments in the
caller's scope, push the `FunctionBlock` frame (the barrier), bind the
parameters pairwise (extra arguments are dropped by the zip). -/
def push_function (runCmd : String → String) :
    Nat → SymbolTable → List ASTNode → List String → Res SymbolTable
  | 0, _, _, _ => .error .fuel
  | fuel + 1, st, callArgs, params => do
    let (st1, argVals) ← visit_function_args runCmd fuel st callArgs
    let st2 := st1.push_scope .FunctionBlock
    return setAll st2 (params.zip argVals)

/-- Function-call evaluation (`visit_function`): resolve the callee name; a
non-function value SILENTLY yields `None` (before any argument is
evaluated); otherwise check arity (`validate_function_call`), push the
activation, evaluate the body, pop, and the body's value (or `None`) is the
call result. -/
def visit_function (runCmd : String → String) :
    Nat → SymbolTable → String → List ASTNode → Res (SymbolTable × Symbol)
  | 0, _, _, _ => .error .fuel
  | fuel + 1, st, fname, callArgs => do
    let s ← get_symbol st fname
    match s with
    | .Function n body params =>
      if callArgs.length < params.length then
        .error (.user (n ++ " missing function args expected " ++
          toString params.length ++ " received " ++ toString callArgs.length))
      else do
        let st2 ← push_function runCmd fuel st callArgs params
        let (st3, res) ← evalNode runCmd fuel st2 body
        let st4 := st3.pop_scope
        return (st4, res.getD Symbol.None)
    | _ => .ok (st, Symbol.None)

/-- Method-call evaluation (`visit_member_expression_call`): arguments
first, then the receiver is resolved mutably; a borrowed receiver is mutated
in place and written back, a detached receiver's mutation is dropped.
Modelled from the spec: the snapshot's version does not type-check as
written (`Symbol::call` yields an `Option`), so per the spec's per-statement
output contract a method without a return value yields `None`. -/
def visit_member_expression_call (runCmd : String → String) :
    Nat → SymbolTable → ASTNode → String → List ASTNode →
      Res (SymbolTable × Symbol)
  | 0, _, _, _, _ => .error .fuel
  | fuel + 1, st, base, property, astArgs => do
    let (st1, args) ← visit_function_args runCmd fuel st astArgs
    let (st2, ref) ← visit_node_mut runCmd fuel st1 base
    match ref with
    | .MutRef loc cur => do
      let (cur2, res) ← cur.callMethod property args
      return (writeLoc st2 loc cur2, res.getD Symbol.None)
    | .Value v => do
      let (_, res) ← v.callMethod property args
      return (st2, res.getD Symbol.None)

/-- Call dispatch (`eval_call_expression`): an identifier base is a function
call, a member base a method call; anything else is `unimplemented!`. -/
def eval_call_expression (runCmd : String → String) :
    Nat → SymbolTable → ASTNode → List ASTNode → Res (SymbolTable × Symbol)
  | 0, _, _, _ => .error .fuel
  | fuel + 1, st, base, args =>
    match base with
    | .Identifier fname => visit_function runCmd fuel st fname args
    | .MemberExpression mbase prop =>
      visit_member_expression_call runCmd fuel st mbase prop args
    | _ => .error (.panicked "unimplemented: object is not callable")

/-- Index evaluation (`eval_index`): the index expression must produce a
number, cast with `as usize`. -/
def eval_index (runCmd : String → String) :
    Nat → SymbolTable → ASTNode → Res (SymbolTable × Nat)
  | 0, _, _ => .error .fuel
  | fuel + 1, st, expr => do
    let (st1, o) ← evalNode runCmd fuel st expr
    match o with
    | some s =>
      match s with
      | .Number index => .ok (st1, ratToUsize index)
      | _ => .error (.user "indices must be numbers")
    | none => .error (.user "indices must be numbers")

/-- Index read (`visit_index_expression`): index first, then the base; only
lists and strings are indexable; the source unwraps the base's option (a
valueless base is a panic). -/
def visit_index_expression (runCmd : String → String) :
    Nat → SymbolTable → ASTNode → ASTNode → Res (SymbolTable × Symbol)
  | 0, _, _, _ => .error .fuel
  | fuel + 1, st, base, idx => do
    let (st1, index) ← eval_index runCmd fuel st idx
    let (st2, o) ← evalNode runCmd fuel st1 base
    match o with
    | some s =>
      match s with
      | .List items => do
        let v ← listGet items index
        return (st2, v)
      | .String str => do
        let v ← strGet str index
        return (st2, v)
      | _ => .error (.user (s.kind ++ " is not indexable"))
    | none => .error (.panicked "Option::unwrap on None")

/-- Mutable index resolution (`visit_index_expression_mut` plus
`Symbol::get_index_mut`): the base must resolve to a borrowed list and the
index must be in range; mutable string indexing and by-value index mutation
are `unimplemented!`. -/
def visit_index_expression_mut (runCmd : String → String) :
    Nat → SymbolTable → ASTNode → ASTNode →
      Res (SymbolTable × MutLoc × List Symbol × Nat)
  | 0, _, _, _ => .error .fuel
  | fuel + 1, st, base, idx => do
    let (st1, index) ← eval_index runCmd fuel st idx
    let (st2, ref) ← visit_node_mut runCmd fuel st1 base
    match ref with
    | .MutRef loc cur =>
      match cur with
      | .List items =>
        if index < items.length then .ok (st2, loc, items, index)
        else .error (.user "list index out of range")
      | .String _ =>
        .error (.panicked "unimplemented: mutable index access for strings")
      | _ => .error (.user "object is not indexable")
    | .Value _ => .error (.panicked "unimplemented: by value index mutation")

/-- Assignment evaluation (`eval_variable_expression`): the right-hand side
is evaluated first; an identifier l-value goes through `SymbolTable::set`, an
index l-value writes through the resolved element; any other l-value is
`unimplemented!`. -/
def eval_variable_expression (runCmd : String → String) :
    Nat → SymbolTable → ASTNode → ASTNode → Res SymbolTable
  | 0, _, _, _ => .error .fuel
  | fuel + 1, st, lhs, rhs => do
    let (st1, o) ← evalNode runCmd fuel st rhs
    match o with
    | none => .error (.user "right hand side not found")
    | some rhsV =>
      match lhs with
      | .Identifier ident => .ok (st1.set ident rhsV)
      | .IndexExpression base idx => do
        let (st2, loc, items, index) ←
          visit_index_expression_mut runCmd fuel st1 base idx
        return writeLoc st2 loc (.List (items.set index rhsV))
      | _ => .error (.panicked "unimplemented: object assignment")

/-- Unary negation (`eval_unary_expression`): a number negates; any other
value (or no value) yields no value. -/
def eval_unary_expression (runCmd : String → String) :
    Nat → SymbolTable → ASTNode → Res (SymbolTable × Option Symbol)
  | 0, _, _ => .error .fuel
  | fuel + 1, st, node => do
    let (st1, o) ← evalNode runCmd fuel st node
    match o with
    | none => .ok (st1, none)
    | some s =>
      match s with
      | .Number num => .ok (st1, some (.Number (-num)))
      | _ => .ok (st1, none)

/-- Binary-expression evaluation (`eval_binary_expression`): the left
operand is evaluated; `&&` with a falsy left (resp. `||` with a truthy left)
short-circuits to the left value WITHOUT evaluating the right operand;
otherwise the right operand is evaluated and the value-level operator table
applies. -/
def eval_binary_expression (runCmd : String → String) :
    Nat → SymbolTable → ASTNode → TokenType → ASTNode →
      Res (SymbolTable × Option Symbol)
  | 0, _, _, _, _ => .error .fuel
  | fuel + 1, st, left, op, right => do
    let (st1, ol) ← evalNode runCmd fuel st left
    match ol with
    | none => .ok (st1, none)
    | some l =>
      if op == .And && !l.is_truthy then .ok (st1, some l)
      else if op == .Or && l.is_truthy then .ok (st1, some l)
      else do
        let (st2, orr) ← evalNode runCmd fuel st1 right
        match orr with
        | none => .ok (st2, none)
        | some r => do
          let res ← symBinaryOp l op r
          return (st2, some res)

end

/-- Program evaluation (`ASTEvaluator::eval`): one optional value per
top-level statement. -/
def evalProgram (runCmd : String → String) (fuel : Nat) (st : SymbolTable)
    (program : ASTNode) : Res (SymbolTable × List (Option Symbol)) :=
  match program with
  | .Program body => evalLines runCmd fuel st body
  | _ => .error (.user "expected program")

/-! ## Lexer, from `src/lexer/lexer.rs`

The byte buffer is modelled as a `List Char`; the source performs ASCII-only
byte tests and every claim only exercises ASCII input, where bytes and
characters coincide.  The cursor is implicit: functions receive the
remaining input, and `peak`-style readers return the token together with the
number of bytes read. -/

/-- Whitespace class (`is_whitespace`): space, tab, carriage return. -/
def lexIsWhitespace (c : Char) : Bool :=
  c = ' ' || c = '\t' || c = '\r'

/-- The stateful predicate loop inside `read_digit`'s `read_while` call:
collects digits and at most one dot, threading the captured `seen_dot`
flag. -/
def readDigitAux : List Char → Bool → List Char × Bool
  | [], seen => ([], seen)
  | c :: cs, seen =>
    if c = '.' then
      if seen then ([], seen)
      else
        let (bs, s2) := readDigitAux cs true
        ('.' :: bs, s2)
    else if c.isDigit then
      let (bs, s2) := readDigitAux cs seen
      (c :: bs, s2)
    else ([], seen)

/-- The trailing-dot trimming loop of `read_digit`. -/
def trimTrailingDots (l : List Char) : List Char :=
  (l.reverse.dropWhile (fun c => c = '.')).reverse

/-- Digit-run parsing (`str::parse::<usize>` on an all-digit string). -/
def parseDigitsNat (l : List Char) : Nat :=
  l.foldl (fun a c => a * 10 + (c.toNat - 48)) 0

/-- Decimal parsing (`str::parse::<f64>` on `digits[.digits]`), exact over
`ℚ`: the value is `intpart + fracdigits / 10 ^ fraclen`, assembled with
`mkRat` so that it evaluates by kernel reduction. -/
def parseDecimalQ (l : List Char) : ℚ :=
  let intPart := l.takeWhile (fun c => c ≠ '.')
  let rest := l.dropWhile (fun c => c ≠ '.')
  let frac := rest.drop 1
  mkRat (parseDigitsNat intPart * 10 ^ frac.length + parseDigitsNat frac)
    (10 ^ frac.length)

/-- Numeric-literal reader (`read_digit`): collects digits with at most one
dot, trims trailing dots (which are left in the input and re-emitted as
`Dot` tokens), and produces a `Decimal` token whenever a dot was SEEN during
collection — even if the trimming removed it — else an `Integer` token.  The
returned count is the trimmed length, i.e. how far the cursor advances. -/
def read_digit (src : List Char) : TokenType × Nat :=
  let (bytes, seen_dot) := readDigitAux src false
  let trimmed := trimTrailingDots bytes
  if seen_dot then (.Decimal (parseDecimalQ trimmed), trimmed.length)
  else (.Integer (parseDigitsNat trimmed), trimmed.length)

/-- Identifier reader (`read_identifier`). -/
def read_identifier (src : List Char) : TokenType × Nat :=
  let bytes := src.takeWhile (fun c => c.isAlphanum || c = '_')
  (.Identifier ⟨bytes⟩, bytes.length)

/-- Reader for `=` / `==` (`read_equals`). -/
def read_equals (src : List Char) : TokenType × Nat :=
  match src.get? 1 with
  | some c => if c = '=' then (.DoubleEquals, 2) else (.Equals, 1)
  | none => (.Equals, 1)

/-- Reader for `!` / `!=` (`read_not_equals`); note the source emits
`NotEquals` for both spellings. -/
def read_not_equals (src : List Char) : TokenType × Nat :=
  match src.get? 1 with
  | some c => if c = '=' then (.NotEquals, 2) else (.NotEquals, 1)
  | none => (.NotEquals, 1)

/-- Reader for `<` / `<=` (`read_left_arrow`). -/
def read_left_arrow (src : List Char) : TokenType × Nat :=
  match src.get? 1 with
  | some c => if c = '=' then (.Le, 2) else (.LessThan, 1)
  | none => (.LessThan, 1)

/-- Reader for `>` / `>=` (`read_right_arrow`). -/
def read_right_arrow (src : List Char) : TokenType × Nat :=
  match src.get? 1 with
  | some c => if c = '=' then (.Ge, 2) else (.GreaterThan, 1)
  | none => (.GreaterThan, 1)

/-- Catch-all single-byte token (`read_catch_all`). -/
def read_catch_all (c : Char) : TokenType × Nat :=
  (.CatchAll (String.singleton c), 1)

/-- Reader for `&` / `&&` (`read_and`). -/
def read_and (src : List Char) : TokenType × Nat :=
  match src.get? 1 with
  | some c => if c = '&' then (.And, 2) else read_catch_all '&'
  | none => read_catch_all '&'

/-- Reader for `|` / `||` (`read_pipe`). -/
def read_pipe (src : List Char) : TokenType × Nat :=
  match src.get? 1 with
  | some c => if c = '|' then (.Or, 2) else read_catch_all '|'
  | none => read_catch_all '|'

/-- Quoted-string reader (`read_string`): everything up to the matching
quote, which is consumed as well. -/
def read_string (src : List Char) (term : Char) : TokenType × Nat :=
  let bytes := (src.drop 1).takeWhile (fun c => c ≠ term)
  (.String { value := ⟨bytes⟩, quote := term }, bytes.length + 2)

/-- Escaped-identifier reader (`read_escaped_identifier`): `$name`; a bare
`$` panics in the source. -/
def read_escaped_identifier (src : List Char) : Res (TokenType × Nat) :=
  let bytes := (src.drop 1).takeWhile (fun c => c.isAlphanum)
  if bytes.length = 0 then .error (.panicked "expected a variable")
  else .ok (.EscapedIdentifier ⟨bytes⟩, bytes.length + 1)

/-- Line-comment reader (`read_line_comment`): through but not including the
newline. -/
def read_line_comment (src : List Char) : TokenType × Nat :=
  let bytes := src.takeWhile (fun c => c ≠ '\n')
  (.LineComment, bytes.length)

/-- Whitespace-run reader (`read_whitespace`). -/
def read_whitespace (src : List Char) : TokenType × Nat :=
  let bytes := src.takeWhile lexIsWhitespace
  (.Whitespace, bytes.length)

/-- Single-token classification at the cursor (`Lexer::peak`), in the
source's match order. -/
def lexPeak (src : List Char) : Res (TokenType × Nat) :=
  match src.head? with
  | none => .ok (.EOF, 0)
  | some c =>
    if c = '-' then .ok (.Minus, 1)
    else if c = ',' then .ok (.Comma, 1)
    else if c = ';' then .ok (.SemiColon, 1)
    else if c = '.' then .ok (.Dot, 1)
    else if c = '(' then .ok (.OpenParen, 1)
    else if c = ')' then .ok (.CloseParen, 1)
    else if c = '\x7b' then .ok (.OpenBraces, 1)
    else if c = '\x7d' then .ok (.CloseBraces, 1)
    else if c = '*' then .ok (.Asterisk, 1)
    else if c = '/' then .ok (.ForwardSlash, 1)
    else if c = '\n' then .ok (.Newline, 1)
    else if c = '^' then .ok (.Carat, 1)
    else if c = '+' then .ok (.Plus, 1)
    else if c = '[' then .ok (.OpenSqBracket, 1)
    else if c = ']' then .ok (.CloseSqBracket, 1)
    else if c = '\\' then .ok (.BackSlash, 1)
    else if c = '|' then .ok (read_pipe src)
    else if c = '&' then .ok (read_and src)
    else if c = '=' then .ok (read_equals src)
    else if c = '!' then .ok (read_not_equals src)
    else if c = '>' then .ok (read_right_arrow src)
    else if c = '<' then .ok (read_left_arrow src)
    else if c = '#' then .ok (read_line_comment src)
    else if c = '"' || c = '\'' then .ok (read_string src c)
    else if c = '$' then read_escaped_identifier src
    else if lexIsWhitespace c then .ok (read_whitespace src)
    else if c.isDigit then .ok (read_digit src)
    else if c.isAlpha then .ok (read_identifier src)
    else .ok (read_catch_all c)

/-- Token advance skipping comments (`Lexer::next`): yields the token and
the remaining input. -/
def lexNext : Nat → List Char → Res (TokenType × List Char)
  | 0, _ => .error .fuel
  | fuel + 1, src => do
    let (tok, n) ← lexPeak src
    let src2 := src.drop n
    if tok = .LineComment then lexNext fuel src2 else .ok (tok, src2)

/-- Meaningful-token advance (`Lexer::next_token`): additionally skips
whitespace tokens. -/
def lexNextToken : Nat → List Char → Res (TokenType × List Char)
  | 0, _ => .error .fuel
  | fuel + 1, src => do
    let (tok, src2) ← lexNext (fuel + 1) src
    if tok = .Whitespace then lexNextToken fuel src2 else .ok (tok, src2)

/-- The full meaningful-token sequence of an input, ending with `EOF`. -/
def lexTokens : Nat → List Char → Res (List TokenType)
  | 0, _ => .error .fuel
  | fuel + 1, src => do
    let (tok, src2) ← lexNextToken (fuel + 1) src
    if tok = .EOF then .ok [.EOF]
    else do
      let rest ← lexTokens fuel src2
      return tok :: rest

/-! ## Parser (expression layer), from `src/parser.rs`

The parser is embedded over the token stream the lexer produces (a
`List TokenType`, possibly containing `Whitespace` and `LineComment` tokens):
`streamNext` models `Lexer::next` (skipping comments), `streamNextToken`
models `Lexer::next_token` (also skipping whitespace) and `streamLookahead`
models `Lexer::lookahead`.  The parser state mirrors the `Parser` struct:
the current token plus the remaining stream; the command registry is the
membership predicate `cmds`.  The statement layer (`program`,
`statement_list`, `if`/`for`/`func` statements, `block_statement`) is not
part of the expression closure and is not needed by any claim; everything
reachable from `Parser::expression` is embedded. -/

/-- Token advance skipping comment tokens (`Lexer::next` at stream level). -/
def streamNext : List TokenType → TokenType × List TokenType
  | [] => (.EOF, [])
  | .LineComment :: ts => streamNext ts
  | t :: ts => (t, ts)

/-- Meaningful-token advance (`Lexer::next_token` at stream level). -/
def streamNextToken : List TokenType → TokenType × List TokenType
  | [] => (.EOF, [])
  | t :: ts =>
    if t = .LineComment || t = .Whitespace then streamNextToken ts
    else (t, ts)

/-- K-token lookahead (`Lexer::lookahead`): the k-th upcoming meaningful
token, stopping early at `EOF`; the cursor is not moved. -/
def streamLookahead : Nat → List TokenType → TokenType
  | i, l =>
    let (t, rest) := streamNextToken l
    match i with
    | 0 => t
    | 1 => t
    | i2 + 2 => if t = .EOF then t else streamLookahead (i2 + 1) rest

/-- Parser state (the `lexer` + `curr_token` fields of `Parser`). -/
structure PState where
  curr : TokenType
  rest : List TokenType
deriving DecidableEq, Repr

/-- Construction (`Parser::new`): pull the first meaningful token. -/
def parserInit (tokens : List TokenType) : PState :=
  let (t, r) := streamNextToken tokens
  { curr := t, rest := r }

/-- Token advance (`advance_token`). -/
def PState.advance (p : PState) : PState :=
  let (t, r) := streamNextToken p.rest
  { curr := t, rest := r }

/-- Command-mode token advance (`advance_cmd_token`): whitespace tokens are
preserved. -/
def PState.advanceCmd (p : PState) : PState :=
  let (t, r) := streamNext p.rest
  { curr := t, rest := r }

/-- Lookahead (`Parser::lookahead`): distance 0 is the current token. -/
def PState.lookahead (p : PState) (distance : Nat) : TokenType :=
  match distance with
  | 0 => p.curr
  | _ => streamLookahead distance p.rest

/-- Token consumption (`Parser::eat`): fails on `EOF` or a mismatch, else
yields the consumed token and advances. -/
def eat (p : PState) (expected : TokenType) : Res (TokenType × PState) :=
  if p.curr = .EOF then .error (.user "EOF")
  else if expected ≠ p.curr then
    .error (.user ("unexpected token '" ++ p.curr.display ++ "'"))
  else .ok (p.curr, p.advance)

/-- Operator consumption (`eat_operator`). -/
def eat_operator (p : PState) : Res (TokenType × PState) :=
  match p.curr with
  | .Plus | .Minus | .Asterisk | .ForwardSlash | .Carat | .GreaterThan
  | .LessThan | .Ge | .Le | .DoubleEquals | .NotEquals | .And | .Or =>
    eat p p.curr
  | _ => .error (.user ("unexpected token '" ++ p.curr.display ++
      "', expected an operator"))

/-- Identifier consumption (`eat_identifier`). -/
def eat_identifier (p : PState) : Res (String × PState) :=
  match p.curr with
  | .Identifier ident => do
    let (_, p2) ← eat p (.Identifier ident)
    return (ident, p2)
  | .EscapedIdentifier ident => do
    let (_, p2) ← eat p (.EscapedIdentifier ident)
    return (ident, p2)
  | _ => .error (.user ("unexpected token '" ++ p.curr.display ++
      "', expected an identifier"))

/-- Boolean literal consumption (`eat_bool`). -/
def eat_bool (p : PState) (b : Bool) : ASTNode × PState :=
  (.Boolean b, p.advance)

/-- Operator precedence table (`get_precedence`): `^` = 5, `*` `/` = 3,
`+` `-` = 2, comparisons/equality/logical = 1, anything else 0. -/
def get_precedence (operator : TokenType) : Nat :=
  match operator with
  | .Carat => 5
  | .Asterisk => 3
  | .ForwardSlash => 3
  | .Plus => 2
  | .Minus => 2
  | .DoubleEquals => 1
  | .NotEquals => 1
  | .GreaterThan => 1
  | .LessThan => 1
  | .Ge => 1
  | .Le => 1
  | .And => 1
  | .Or => 1
  | _ => 0

/-- Template-string scanning (`read_template_string`): `$name` runs end at a
space, a bare `$` is a literal dollar; implemented on the character list
with a step budget that the caller instantiates with the string length
(every step consumes at least one character). -/
def readTemplateAux : Nat → List Char → List TemplateToken
  | 0, _ => []
  | _, [] => []
  | fuel + 1, '$' :: rest =>
    let name := rest.takeWhile (fun c => c ≠ ' ')
    if name.isEmpty then .Literal "$" :: readTemplateAux fuel rest
    else .Expression ⟨name⟩ :: readTemplateAux fuel (rest.drop name.length)
  | fuel + 1, c :: rest =>
    let lit := (c :: rest).takeWhile (fun c2 => c2 ≠ '$')
    .Literal ⟨lit⟩ :: readTemplateAux fuel ((c :: rest).drop lit.length)

/-- Template-string node construction (`read_template_string`). -/
def read_template_string (value : String) : ASTNode :=
  .TemplateString (readTemplateAux value.length value.data)

/-- The command-mode fragment loop inside `Parser::command`: consumes tokens
(whitespace preserved) until an unescaped end-of-line; escaped identifiers
become identifier nodes, template strings are scanned, anything else becomes
a string fragment in display form. -/
def commandLoop :
    Nat → List ASTNode → TokenType → PState → List ASTNode × PState
  | 0, tokens, _, p => (tokens.reverse, p)
  | fuel + 1, tokens, prev, p =>
    if p.curr.is_end_line && prev ≠ .BackSlash then (tokens.reverse, p)
    else
      let node := match p.curr with
        | .EscapedIdentifier ident => ASTNode.Identifier ident
        | .TemplateString s => read_template_string s
        | t => ASTNode.String t.display
      commandLoop fuel (node :: tokens) p.curr p.advanceCmd

/-- Command parsing (`Parser::command`): the command name becomes the first
string fragment, then the fragment loop runs in command-token mode. -/
def command (cmd : String) (p : PState) : ASTNode × PState :=
  let (tokens, p2) :=
    commandLoop (p.rest.length + 1) [] p.curr p.advanceCmd
  (.Command (ASTNode.String cmd :: tokens), p2)

mutual

/-- Pratt expression entry (`Parser::expression`): a prefix, then infix
operators while the looked-at operator binds tighter than `precedence`. -/
def expression (cmds : String → Bool) :
    Nat → Nat → PState → Res (ASTNode × PState)
  | 0, _, _ => .error .fuel
  | fuel + 1, precedence, p => do
    let (left, p1) ← prefixParse cmds fuel p
    exprLoop cmds fuel precedence left p1

/-- The operator loop of `Parser::expression`. -/
def exprLoop (cmds : String → Bool) :
    Nat → Nat → ASTNode → PState → Res (ASTNode × PState)
  | 0, _, _, _ => .error .fuel
  | fuel + 1, precedence, left, p =>
    if !p.curr.is_end_line && precedence < get_precedence p.curr then do
      let (left2, p2) ← infixParse cmds fuel left p.curr p
      exprLoop cmds fuel precedence left2 p2
    else .ok (left, p)

/-- Infix step (`Parser::infix`): consume the operator and parse the right
operand at the operator's precedence — except `^`, whose right operand
re-enters one level lower (right associativity). -/
def infixParse (cmds : String → Bool) :
    Nat → ASTNode → TokenType → PState → Res (ASTNode × PState)
  | 0, _, _, _ => .error .fuel
  | fuel + 1, left, operator, p => do
    let (_, p1) ← eat_operator p
    let operator_precedence := get_precedence operator
    let precedence :=
      if operator = .Carat then operator_precedence - 1
      else operator_precedence
    let (right, p2) ← expression cmds fuel precedence p1
    return (.BinaryExpression left operator right, p2)

/-- Prefix dispatch (`Parser::prefix`). -/
def prefixParse (cmds : String → Bool) :
    Nat → PState → Res (ASTNode × PState)
  | 0, _ => .error .fuel
  | fuel + 1, p =>
    match p.curr with
    | .OpenParen => parenthesized_expression cmds fuel p
    | .Minus => unary_expression cmds fuel p
    | .Identifier ident => parse_identifier cmds fuel ident p
    | .OpenSqBracket => list_literal cmds fuel p
    | _ => eat_literal cmds fuel p

/-- Parenthesized expression (`parenthesized_expression`). -/
def parenthesized_expression (cmds : String → Bool) :
    Nat → PState → Res (ASTNode × PState)
  | 0, _ => .error .fuel
  | fuel + 1, p => do
    let (_, p1) ← eat p .OpenParen
    let (expr, p2) ← expression cmds fuel 0 p1
    let (_, p3) ← eat p2 .CloseParen
    return (expr, p3)

/-- Unary minus (`unary_expression`): the operand is parsed at precedence
4. -/
def unary_expression (cmds : String → Bool) :
    Nat → PState → Res (ASTNode × PState)
  | 0, _ => .error .fuel
  | fuel + 1, p => do
    let (_, p1) ← eat p .Minus
    let (inner, p2) ← expression cmds fuel 4 p1
    return (.UnaryExpression inner, p2)

/-- Literal consumption (`eat_literal`): decimals and strings directly; an
integer followed by a dot becomes the start of a range expression. -/
def eat_literal (cmds : String → Bool) :
    Nat → PState → Res (ASTNode × PState)
  | 0, _ => .error .fuel
  | fuel + 1, p =>
    match p.curr with
    | .Decimal dec => .ok (.Number dec, p.advance)
    | .Integer int =>
      match p.lookahead 1 with
      | .Dot => do
        let p1 := p.advance
        let (startN, stopN, incN, p2) ←
          range_expression cmds fuel (.Number (int : ℚ)) p1
        return (.RangeExpression startN stopN incN, p2)
      | _ => .ok (.Number (int : ℚ), p.advance)
    | .String s => .ok (.String (String.singleton s.quote ++ s.value ++
        String.singleton s.quote), p.advance)
    | .TemplateString ts => .ok (read_template_string ts, p.advance)
    | _ => .error (.user ("unexpected token '" ++ p.curr.display ++ "'"))

/-- Range tail (`range_expression`): consume `..`, parse the end; a nested
range in the parse of the end supplies the increment. -/
def range_expression (cmds : String → Bool) :
    Nat → ASTNode → PState →
      Res (ASTNode × ASTNode × Option ASTNode × PState)
  | 0, _, _ => .error .fuel
  | fuel + 1, start, p => do
    let (_, p1) ← eat p .Dot
    let (_, p2) ← eat p1 .Dot
    let (node, p3) ← expression cmds fuel 0 p2
    match node with
    | .RangeExpression s e _ => return (start, s, some e, p3)
    | other => return (start, other, none, p3)

/-- Identifier dispatch (`parse_identifier`): a following `(` begins a call,
`[`/`.` a member chain; then the reserved words; then the command registry;
else a plain identifier, rewritten into an assignment if `=` follows. -/
def parse_identifier (cmds : String → Bool) :
    Nat → String → PState → Res (ASTNode × PState)
  | 0, _, _ => .error .fuel
  | fuel + 1, ident, p =>
    match p.lookahead 1 with
    | .OpenParen => call_expression cmds fuel (.Identifier ident) p.advance
    | .OpenSqBracket => member_expression cmds fuel (.Identifier ident) p.advance
    | .Dot => member_expression cmds fuel (.Identifier ident) p.advance
    | _ =>
      if ident = "return" then return_expression cmds fuel p
      else if ident = "true" then .ok (eat_bool p true)
      else if ident = "false" then .ok (eat_bool p false)
      else if ident = "none" then do
        let (_, p2) ← eat p (.Identifier ident)
        return (.None, p2)
      else if cmds ident then .ok (command ident p)
      else do
        let (name, p2) ← eat_identifier p
        if p2.curr = .Equals then
          variable_statement cmds fuel (.Identifier name) p2
        else .ok (.Identifier name, p2)

/-- Member-chain loop (`member_expression`): suffixes accumulate until none
applies; a trailing `=` rewrites the chain into an assignment. -/
def member_expression (cmds : String → Bool) :
    Nat → ASTNode → PState → Res (ASTNode × PState)
  | 0, _, _ => .error .fuel
  | fuel + 1, base, p => do
    let (base2, more, p2) ← member_prefix_expression cmds fuel base p
    if more then member_expression cmds fuel base2 p2
    else
      if p2.curr = .Equals then variable_statement cmds fuel base2 p2
      else .ok (base2, p2)

/-- One member suffix (`member_prefix_expression`): `.property`, `[index]`
or `(args)`. -/
def member_prefix_expression (cmds : String → Bool) :
    Nat → ASTNode → PState → Res (ASTNode × Bool × PState)
  | 0, _, _ => .error .fuel
  | fuel + 1, base, p =>
    match p.curr with
    | .Dot => do
      let (_, p1) ← eat p .Dot
      let (property, p2) ← eat_identifier p1
      return (.MemberExpression base property, true, p2)
    | .OpenSqBracket => do
      let (_, p1) ← eat p .OpenSqBracket
      let (index, p2) ← expression cmds fuel 0 p1
      let (_, p3) ← eat p2 .CloseSqBracket
      return (.IndexExpression base index, true, p3)
    | .OpenParen => do
      let (node, p2) ← call_expression cmds fuel base p
      return (node, true, p2)
    | _ => .ok (base, false, p)

/-- Call parsing (`call_expression`): argument list in parentheses; a
following `.` continues into a member chain on the call node. -/
def call_expression (cmds : String → Bool) :
    Nat → ASTNode → PState → Res (ASTNode × PState)
  | 0, _, _ => .error .fuel
  | fuel + 1, base, p => do
    let (_, p1) ← eat p .OpenParen
    let (args, p2) ← call_expression_args cmds fuel p1
    let (_, p3) ← eat p2 .CloseParen
    let node := ASTNode.CallExpression base args
    if p3.curr = .Dot then member_expression cmds fuel node p3
    else .ok (node, p3)

/-- Call argument list (`call_expression_args`). -/
def call_expression_args (cmds : String → Bool) :
    Nat → PState → Res (List ASTNode × PState)
  | 0, _ => .error .fuel
  | fuel + 1, p =>
    if p.curr = .CloseParen then .ok ([], p)
    else do
      let (arg, p1) ← expression cmds fuel 0 p
      if p1.curr = .CloseParen then .ok ([arg], p1)
      else do
        let (_, p2) ← eat p1 .Comma
        let (args, p3) ← call_expression_args cmds fuel p2
        return (arg :: args, p3)

/-- List literal (`list_literal`). -/
def list_literal (cmds : String → Bool) :
    Nat → PState → Res (ASTNode × PState)
  | 0, _ => .error .fuel
  | fuel + 1, p => do
    let (_, p1) ← eat p .OpenSqBracket
    if p1.curr = .CloseSqBracket then do
      let (_, p2) ← eat p1 .CloseSqBracket
      return (.List [], p2)
    else do
      let (items, p2) ← list_items cmds fuel p1
      return (.List items, p2)

/-- The element loop of `list_literal`. -/
def list_items (cmds : String → Bool) :
    Nat → PState → Res (List ASTNode × PState)
  | 0, _ => .error .fuel
  | fuel + 1, p => do
    let (item, p1) ← expression cmds fuel 0 p
    if p1.curr = .CloseSqBracket then do
      let (_, p2) ← eat p1 .CloseSqBracket
      return ([item], p2)
    else do
      let (_, p2) ← eat p1 .Comma
      let (items, p3) ← list_items cmds fuel p2
      return (item :: items, p3)

/-- Return expression (`return_expression`). -/
def return_expression (cmds : String → Bool) :
    Nat → PState → Res (ASTNode × PState)
  | 0, _ => .error .fuel
  | fuel + 1, p => do
    let (_, p1) ← eat p (.Identifier "return")
    let (expr, p2) ← expression cmds fuel 0 p1
    return (.ReturnStatement expr, p2)

/-- Assignment rewrite (`variable_statement`): consume `=` and parse the
right-hand side. -/
def variable_statement (cmds : String → Bool) :
    Nat → ASTNode → PState → Res (ASTNode × PState)
  | 0, _, _ => .error .fuel
  | fuel + 1, lhs, p => do
    let (_, p1) ← eat p .Equals
    let (rhs, p2) ← expression cmds fuel 0 p1
    return (.VariableExpression lhs rhs, p2)

end

/-! ## Claim theorems -/

/-- Reduction of a successful monadic bind over `Res`, used to unfold the
evaluator symbolically. -/
theorem resBindOk {α β : Type} (a : α) (f : α → Res β) :
    (Except.ok a >>= f : Res β) = f a := rfl

/-- Reduction of a failed monadic bind over `Res`. -/
theorem resBindError {α β : Type} (e : Err) (f : α → Res β) :
    ((Except.error e : Res α) >>= f : Res β) = .error e := rfl

/-- Reduction of `pure` over `Res`. -/
theorem resPure {α : Type} (a : α) : (pure a : Res α) = .ok a := rfl

/-- The C1 failing program with an if-statement:
`func f() { if true { return 5 } ; return 1 }` followed by `f()`. -/
def progReturnIf : ASTNode :=
  .Program [
    .FunctionStatement "f"
      (.BlockStatement [
        .IfStatement (.Boolean true)
          (.BlockStatement [.ReturnStatement (.Number 5)]) none,
        .ReturnStatement (.Number 1)]) [],
    .CallExpression (.Identifier "f") []]

/-- The C1 failing program with a for-loop:
`func g() { for v in 0..3 { return 5 } ; return 1 }` followed by `g()`. -/
def progReturnFor : ASTNode :=
  .Program [
    .FunctionStatement "g"
      (.BlockStatement [
        .ForStatement "v"
          (Iterable.RangeExpression (.Number 0) (.Number 3) none)
          (.BlockStatement [.ReturnStatement (.Number 5)]),
        .ReturnStatement (.Number 1)]) [],
    .CallExpression (.Identifier "g") []]

/-- Claim C1 (code bug): a `ReturnStatement` inside an if-block or a
for-loop body does NOT become the result of the enclosing function call —
`eval_if_statement` and `eval_for_statement` discard the block's value, so
both programs fall through to the trailing `return 1` and the call yields
`Number 1`, not `Number 5` as the specified control-flow invariant
requires (and in the for-loop the remaining iterations still run). -/
theorem return_inside_block_is_discarded :
    (evalProgram (fun _ => "") 100 (initState []) progReturnIf).map
        (fun p => p.2) = .ok [none, some (.Number 1)] ∧
    (evalProgram (fun _ => "") 100 (initState []) progReturnFor).map
        (fun p => p.2) = .ok [none, some (.Number 1)] := by
  exact ⟨rfl, rfl⟩

/-- Claim C3 (code bug): `List::remove` only rejects `index > len`, so
`remove(len)` passes the guard and `Vec::remove` panics — the process
crashes instead of reporting a user-visible error.  The first conjunct is
the crash at `[5].remove(1)`; the remaining conjuncts record the behaviour
around it: in-range removal works, `index > len` is a user error, and
`insert` accepts all of `[0, len]` and rejects `len + 1`. -/
theorem list_remove_at_len_panics :
    listRemove [.Number 5] [.Number 1] =
      .error (.panicked "Vec::remove: index out of bounds") ∧
    listRemove [.Number 5, .Number 6] [.Number 0] =
      .ok ([.Number 6], .Number 5) ∧
    listRemove [.Number 5] [.Number 2] =
      .error (.user "list remove index out of range") ∧
    listInsert [.Number 5] [.Number 1, .Number 7] =
      .ok [.Number 5, .Number 7] ∧
    listInsert [.Number 5] [.Number 0, .Number 7] =
      .ok [.Number 7, .Number 5] ∧
    listInsert [.Number 5] [.Number 2, .Number 7] =
      .error (.user "list insert index out of range") := by
  refine ⟨rfl, rfl, rfl, rfl, rfl, rfl⟩

/-- Claim C4: short-circuit evaluation of `&&` and `||`.  A falsy left
operand of `&&` (resp. a truthy left operand of `||`) yields the LEFT value
with the right-hand node `R` universally quantified and the state unchanged
beyond the left evaluation — `R` is never evaluated.  Otherwise the result
is the RIGHT operand's value as-is, not coerced to a boolean. -/
theorem binary_short_circuit (runCmd : String → String) (fuel : Nat)
    (st st1 : SymbolTable) (L : ASTNode) (lv : Symbol)
    (hL : evalNode runCmd fuel st L = .ok (st1, some lv)) :
    (lv.is_truthy = false → ∀ R : ASTNode,
      eval_binary_expression runCmd (fuel + 1) st L .And R =
        .ok (st1, some lv)) ∧
    (lv.is_truthy = true → ∀ R : ASTNode,
      eval_binary_expression runCmd (fuel + 1) st L .Or R =
        .ok (st1, some lv)) ∧
    (lv.is_truthy = true → ∀ (R : ASTNode) (st2 : SymbolTable) (rv : Symbol),
      evalNode runCmd fuel st1 R = .ok (st2, some rv) →
      eval_binary_expression runCmd (fuel + 1) st L .And R =
        .ok (st2, some rv)) ∧
    (lv.is_truthy = false → ∀ (R : ASTNode) (st2 : SymbolTable) (rv : Symbol),
      evalNode runCmd fuel st1 R = .ok (st2, some rv) →
      eval_binary_expression runCmd (fuel + 1) st L .Or R =
        .ok (st2, some rv)) := by
  refine ⟨fun hf R => ?_, fun ht R => ?_, fun ht R st2 rv hR => ?_,
    fun hf R st2 rv hR => ?_⟩ <;>
    simp [eval_binary_expression, hL, *, symBinaryOp, resBindOk, resPure]

/-- Witness for C4 at concrete inputs: `0 && R` yields `Number 0` for an
arbitrary unevaluated `R`, `1 || R` yields `Number 1`, `1 && 2` yields
`Number 2` as-is and `0 || 2` yields `Number 2`. -/
theorem binary_short_circuit_witness :
    (∀ R, eval_binary_expression (fun _ => "") 2 (initState [])
      (.Number 0) .And R = .ok (initState [], some (.Number 0))) ∧
    (∀ R, eval_binary_expression (fun _ => "") 2 (initState [])
      (.Number 1) .Or R = .ok (initState [], some (.Number 1))) ∧
    eval_binary_expression (fun _ => "") 2 (initState [])
      (.Number 1) .And (.Number 2) = .ok (initState [], some (.Number 2)) ∧
    eval_binary_expression (fun _ => "") 2 (initState [])
      (.Number 0) .Or (.Number 2) = .ok (initState [], some (.Number 2)) := by
  have h0 := binary_short_circuit (fun _ => "") 1 (initState [])
    (initState []) (.Number 0) (.Number 0) rfl
  have h1 := binary_short_circuit (fun _ => "") 1 (initState [])
    (initState []) (.Number 1) (.Number 1) rfl
  exact ⟨fun R => h0.1 rfl R, fun R => h1.2.1 rfl R,
    h1.2.2.1 rfl (.Number 2) (initState []) (.Number 2) rfl,
    h0.2.2.2 rfl (.Number 2) (initState []) (.Number 2) rfl⟩

/-- The C8 program `x = [q] ; y = x[0] ; y = r ; x[0]`, literal payloads
parameterized. -/
def progClone (q r : ℚ) : ASTNode :=
  .Program [
    .VariableExpression (.Identifier "x") (.List [.Number q]),
    .VariableExpression (.Identifier "y")
      (.IndexExpression (.Identifier "x") (.Number 0)),
    .VariableExpression (.Identifier "y") (.Number r),
    .IndexExpression (.Identifier "x") (.Number 0)]

/-- Claim C8: a read through an identifier or index expression yields a
clone — after `x = [q] ; y = x[0] ; y = r`, the final `x[0]` still yields
`Number q` (for every `q` and `r`, in particular `q = 5`, `r = 1`). -/
theorem index_read_clones (q r : ℚ) (runCmd : String → String) :
    (evalProgram runCmd 100 (initState []) (progClone q r)).map
      (fun p => p.2) = .ok [none, none, none, some (.Number q)] := by
  rfl

/-- Claim C10: a call `f(args...)` where `f` is bound to a non-function
value silently yields `None`: the state is returned untouched and the
argument list is universally quantified — no argument is evaluated. -/
theorem call_non_function_yields_none (runCmd : String → String) (fuel : Nat)
    (st : SymbolTable) (fname : String) (args : List ASTNode) (v : Symbol)
    (hv : st.get fname = some v)
    (hnf : ∀ n b a, v ≠ .Function n b a) :
    evalNode runCmd (fuel + 3) st
      (.CallExpression (.Identifier fname) args) =
      .ok (st, some Symbol.None) := by
  cases v <;>
    first
    | exact absurd rfl (hnf _ _ _)
    | simp [evalNode, eval_call_expression, visit_function, get_symbol, hv,
        resBindOk, resPure]

/-- Witness for C10: with `x` bound to `Number 3`, the call `x(1)` yields
`None` without a type error. -/
theorem call_non_function_yields_none_witness :
    evalNode (fun _ => "") 3 ((initState []).set "x" (.Number 3))
      (.CallExpression (.Identifier "x") [.Number 1]) =
      .ok ((initState []).set "x" (.Number 3), some Symbol.None) := by
  exact call_non_function_yields_none (fun _ => "") 0
    ((initState []).set "x" (.Number 3)) "x" [.Number 1] (.Number 3) rfl
    (fun n b a h => by cases h)

/-! ### Assignment semantics (C6) -/

/-- Rebinding a name in frame `id` rewrites exactly that frame's map. -/
theorem lookupA_writeBinding_self (tbl : List (Nat × Bindings)) (id : Nat)
    (name : String) (v : Symbol) :
    lookupA (writeBinding tbl id name v) id =
      (lookupA tbl id).map (fun fr => insertA fr name v) := by
  induction tbl with
  | nil => rfl
  | cons e rest ih =>
    simp only [writeBinding] at ih ⊢
    by_cases h : e.1 = id
    · simp [lookupA, h]
    · simp [lookupA, h, ih]

/-- Rebinding a name in frame `id` leaves every other frame untouched. -/
theorem lookupA_writeBinding_other (tbl : List (Nat × Bindings)) (id : Nat)
    (name : String) (v : Symbol) (k : Nat) (hk : k ≠ id) :
    lookupA (writeBinding tbl id name v) k = lookupA tbl k := by
  induction tbl with
  | nil => rfl
  | cons e rest ih =>
    simp only [writeBinding] at ih ⊢
    have h3 : ¬ (id = k) := fun hh => hk hh.symm
    by_cases h : e.1 = id
    · have h2 : ¬ (e.1 = k) := by omega
      simp [lookupA, h, h2, h3, ih]
    · by_cases h2 : e.1 = k
      · simp [lookupA, h, h2, hk, ih]
      · simp [lookupA, h, h2, ih]

/-- Claim C6: `SymbolTable::set`.  If the name is found by the
innermost-first walk (`SymbolTable.find`), the binding is rewritten in the
frame where it was found — every other frame, in particular the current
one when they differ, is untouched; if the name is unbound in the active
inner stack, the binding is inserted into the topmost (current) frame. -/
theorem set_updates_defining_scope (st : SymbolTable) (name : String)
    (v : Symbol) :
    (∀ id s, st.find name = some (id, s) →
      (st.set name v).scope = st.scope ∧
      (st.set name v).scoped_table = writeBinding st.scoped_table id name v ∧
      lookupA (st.set name v).scoped_table id =
        (lookupA st.scoped_table id).map (fun fr => insertA fr name v) ∧
      ∀ k, k ≠ id →
        lookupA (st.set name v).scoped_table k = lookupA st.scoped_table k) ∧
    (st.find name = none → ∀ sc, st.scope.curr = some sc →
      (st.set name v).scope = st.scope ∧
      (st.set name v).scoped_table =
        writeBinding st.scoped_table sc.id name v ∧
      lookupA (st.set name v).scoped_table sc.id =
        (lookupA st.scoped_table sc.id).map (fun fr => insertA fr name v) ∧
      ∀ k, k ≠ sc.id →
        lookupA (st.set name v).scoped_table k = lookupA st.scoped_table k) := by
  constructor
  · intro id s h
    have hset : st.set name v =
        { st with scoped_table := writeBinding st.scoped_table id name v } := by
      simp [SymbolTable.set, h]
    rw [hset]
    exact ⟨rfl, rfl, lookupA_writeBinding_self _ _ _ _,
      fun k hk => lookupA_writeBinding_other _ _ _ _ _ hk⟩
  · intro h sc hsc
    have hset : st.set name v =
        { st with scoped_table := writeBinding st.scoped_table sc.id name v } := by
      simp [SymbolTable.set, h, hsc]
    rw [hset]
    exact ⟨rfl, rfl, lookupA_writeBinding_self _ _ _ _,
      fun k hk => lookupA_writeBinding_other _ _ _ _ _ hk⟩

/-- A caller state for the C6 witness: `x` bound in the global frame while
an inner conditional frame (id 1) is the current scope. -/
def exampleTable : SymbolTable :=
  { scoped_table := [(0, [("x", .Number 1)]), (1, [])],
    scope := { scope := [[{ id := 1, kind := .ConditionalBlock },
                          { id := 0, kind := .Global }]],
               counter := 2 } }

/-- Witness for C6: assigning `x = 2` from inside the inner frame updates
the global frame (where `x` was found) and leaves the current frame's map
unchanged. -/
theorem set_updates_defining_scope_witness :
    lookupA ((exampleTable.set "x" (.Number 2)).scoped_table) 1 =
      lookupA exampleTable.scoped_table 1 ∧
    lookupA ((exampleTable.set "x" (.Number 2)).scoped_table) 0 =
      some [("x", .Number 2)] := by
  have h := (set_updates_defining_scope exampleTable "x" (.Number 2)).1 0
    (.Number 1) rfl
  refine ⟨h.2.2.2 1 (by decide), ?_⟩
  rw [h.2.2.1]
  rfl

/-! ### Range iteration (C7) -/

/-- The expected visit sequence of a unit-increment range from cursor `t`:
`t, t+1, …, t+k−1` as number values. -/
def rangeVisit (t : Int) (k : Nat) : List Symbol :=
  (List.range k).map (fun i : Nat => Symbol.Number ((t + (i : Int) : Int) : ℚ))

/-- Peeling one value off the expected visit sequence. -/
theorem rangeVisit_succ (t : Int) (k : Nat) :
    Symbol.Number ((t : Int) : ℚ) :: rangeVisit (t + 1) k
      = rangeVisit t (k + 1) := by
  unfold rangeVisit
  rw [List.range_succ_eq_map, List.map_cons, List.map_map]
  refine congrArg₂ List.cons ?_ ?_
  · exact congrArg Symbol.Number (by push_cast; ring)
  · refine congrArg (fun f => List.map f (List.range k)) ?_
    funext i
    show Symbol.Number ((t + 1 + (i : Int) : Int) : ℚ)
      = Symbol.Number ((t + ((i + 1 : Nat) : Int) : Int) : ℚ)
    exact congrArg Symbol.Number (by push_cast; ring)

/-- The generalized iteration lemma behind C7: with increment 1 and cursor
`t`, the remaining sequence is `t, t+1, …, stop−1` — `(stop − t).toNat`
values — whenever the fuel covers it.  The `start` field does not influence
iteration. -/
theorem rangeIterOpt_increment_one (k : Nat) :
    ∀ (fuel : Nat) (s0 t e : Int), (e - t).toNat = k → k ≤ fuel →
    rangeIterOpt fuel { start := s0, stop := e, increment := 1, ticker := t }
      = some (rangeVisit t k) := by
  induction k with
  | zero =>
    intro fuel s0 t e hk _
    have hc2 : t ≥ e := by omega
    have hnext : RangeV.next
        { start := s0, stop := e, increment := 1, ticker := t } = none := by
      unfold RangeV.next
      rw [if_pos ⟨by norm_num, hc2⟩]
    cases fuel <;> simp [rangeIterOpt, hnext, rangeVisit]
  | succ k ih =>
    intro fuel s0 t e hk hfuel
    obtain ⟨f, rfl⟩ : ∃ f, fuel = f + 1 := ⟨fuel - 1, by omega⟩
    have hte : t < e := by omega
    have hnext : RangeV.next
        { start := s0, stop := e, increment := 1, ticker := t } =
        some (t, { start := s0, stop := e, increment := 1,
                   ticker := t + 1 }) := by
      unfold RangeV.next
      rw [if_neg (fun hcon => absurd (show t ≥ e from hcon.2) (by omega)),
        if_neg (fun hcon =>
          absurd (show (1 : Int) < 0 from hcon.1) (by norm_num))]
    have hrec := ih f s0 (t + 1) e (by omega) (by omega)
    simp only [rangeIterOpt, hnext, hrec, Option.map_some']
    exact congrArg some (rangeVisit_succ t k)

/-- Claim C7: `Range` iteration.  `next` yields nothing exactly when
`increment>0 ∧ cursor≥end` or `increment<0 ∧ cursor≤end`; otherwise it
yields `Number(cursor)` and advances the cursor by `increment`; and with
the default increment 1, `s..e` visits exactly `(e−s).toNat = max 0 (e−s)`
values, namely `s, s+1, …, e−1`. -/
theorem range_iteration_count :
    (∀ r : RangeV, r.next = none ↔
      (r.increment > 0 ∧ r.ticker ≥ r.stop) ∨
      (r.increment < 0 ∧ r.ticker ≤ r.stop)) ∧
    (∀ (r r2 : RangeV) (v : Int), r.next = some (v, r2) →
      v = r.ticker ∧ r2 = { r with ticker := r.ticker + r.increment }) ∧
    (∀ (s e : Int) (fuel : Nat), (e - s).toNat ≤ fuel →
      rangeIterOpt fuel (RangeV.new s e none) =
        some (rangeVisit s (e - s).toNat) ∧
      (rangeVisit s (e - s).toNat).length = (e - s).toNat ∧
      ((e - s).toNat : Int) = max 0 (e - s)) := by
  refine ⟨?_, ?_, ?_⟩
  · intro r
    unfold RangeV.next
    split_ifs with h1 h2
    · exact iff_of_true rfl (Or.inl h1)
    · exact iff_of_true rfl (Or.inr h2)
    · simp [h1, h2]
  · intro r r2 v h
    unfold RangeV.next at h
    split_ifs at h
    simp only [Option.some.injEq, Prod.mk.injEq] at h
    exact ⟨h.1.symm, h.2.symm⟩
  · intro s e fuel hfuel
    refine ⟨rangeIterOpt_increment_one _ fuel s s e rfl hfuel, ?_, by omega⟩
    simp [rangeVisit]

/-- Witness for C7: `1..3` with the default increment visits exactly the
two values 1, 2. -/
theorem range_iteration_count_witness :
    rangeIterOpt 5 (RangeV.new 1 3 none) =
      some [Symbol.Number 1, Symbol.Number 2] ∧
    ((3 - 1 : Int).toNat : Int) = max 0 (3 - 1 : Int) := by
  have h := (range_iteration_count).2.2 1 3 5 (by decide)
  refine ⟨?_, h.2.2⟩
  rw [h.1]
  have h2 : ((3 : Int) - 1).toNat = 2 := by decide
  rw [h2]
  simp [rangeVisit, List.range_succ]
  norm_num

/-! ### Function isolation (C2) -/

/-- Lookup in the empty map. -/
theorem lookupA_nil {κ α : Type} [DecidableEq κ] (k : κ) :
    lookupA ([] : List (κ × α)) k = none := rfl

/-- Lookup of the key just inserted. -/
theorem lookupA_insertA_self {κ α : Type} [DecidableEq κ] (l : List (κ × α))
    (k : κ) (v : α) : lookupA (insertA l k v) k = some v := by
  simp [insertA, lookupA]

/-- Dropping the entries of an unrelated key does not change a lookup. -/
theorem lookupA_filter_ne {κ α : Type} [DecidableEq κ] (l : List (κ × α))
    (c k : κ) (h : k ≠ c) :
    lookupA (l.filter (fun e => e.1 ≠ c)) k = lookupA l k := by
  induction l with
  | nil => rfl
  | cons e rest ih =>
    have hck : ¬ (c = k) := fun hh => h hh.symm
    by_cases he : e.1 = c
    · have h2 : ¬ (e.1 = k) := fun hh => h (by rw [← hh, he])
      simpa [List.filter_cons, lookupA, he, h2, hck] using ih
    · by_cases h2 : e.1 = k
      · simp [List.filter_cons, lookupA, he, h2, h]
      · simpa [List.filter_cons, lookupA, he, h2] using ih

/-- Insertion under an unrelated key does not change a lookup. -/
theorem lookupA_insertA_other {κ α : Type} [DecidableEq κ] (l : List (κ × α))
    (k k2 : κ) (v : α) (h : k2 ≠ k) :
    lookupA (insertA l k v) k2 = lookupA l k2 := by
  have hk : ¬ (k = k2) := fun hh => h hh.symm
  have hflt := lookupA_filter_ne l k k2 h
  simp only [insertA, lookupA, hk, if_false]
  exact hflt

/-- Claim C2: function isolation.  Pushing the `FunctionBlock` barrier makes
the active inner stack exactly `[fresh frame, global frame]` — the caller's
non-global frames are no longer in the resolution view — and consequently
calling a parameterless function whose body reads a name `n` that is bound
only in a caller's non-global frame (hypothesis `hcaller`) and not in the
global frame (hypothesis `hgl`) reports the Name error `'n' is not
defined`. -/
theorem function_isolation (runCmd : String → String) (fuel : Nat)
    (st : SymbolTable) (n f : String)
    (hgl : (lookupA st.scoped_table GLOBAL_SCOPE_ID).bind
        (fun fr => lookupA fr n) = none)
    (_hcaller : ∃ sc ∈ st.scope.curr_stack, sc.id ≠ GLOBAL_SCOPE_ID ∧
        (lookupA st.scoped_table sc.id).bind (fun fr => lookupA fr n) ≠ none)
    (hctr : st.scope.counter ≠ GLOBAL_SCOPE_ID)
    (hf : st.get f = some (.Function f
        (.BlockStatement [.ReturnStatement (.Identifier n)]) [])) :
    (st.push_scope .FunctionBlock).scope.curr_stack =
      [{ id := st.scope.counter, kind := .FunctionBlock },
       { id := GLOBAL_SCOPE_ID, kind := .Global }] ∧
    evalNode runCmd (fuel + 6) st (.CallExpression (.Identifier f) []) =
      .error (.user ("'" ++ n ++ "' is not defined")) := by
  have hcs : (st.push_scope .FunctionBlock).scope.curr_stack =
      [{ id := st.scope.counter, kind := .FunctionBlock },
       { id := GLOBAL_SCOPE_ID, kind := .Global }] := by
    simp [SymbolTable.push_scope, ScopeStack.push, ScopeStack.push_scope_stack,
      ScopeStack.curr_stack]
  have htbl : (st.push_scope .FunctionBlock).scoped_table =
      insertA st.scoped_table st.scope.counter [] := by
    simp [SymbolTable.push_scope, ScopeStack.push, ScopeStack.push_scope_stack]
  have h0ne : (GLOBAL_SCOPE_ID : Nat) ≠ st.scope.counter :=
    fun hh => hctr hh.symm
  have hga : lookupA (insertA st.scoped_table st.scope.counter ([] : Bindings))
      st.scope.counter = some ([] : Bindings) := lookupA_insertA_self _ _ _
  have hgb : lookupA (insertA st.scoped_table st.scope.counter ([] : Bindings))
      GLOBAL_SCOPE_ID = lookupA st.scoped_table GLOBAL_SCOPE_ID :=
    lookupA_insertA_other _ _ _ _ h0ne
  have hget : SymbolTable.get (st.push_scope .FunctionBlock) n = none := by
    simp only [SymbolTable.get, SymbolTable.find, hcs, SymbolTable.find.go,
      htbl, hga, hgb, Option.some_bind, lookupA_nil, hgl]
  have hU : evalNode runCmd (fuel + 1) (st.push_scope .FunctionBlock)
      (.Identifier n) = .error (.user ("'" ++ n ++ "' is not defined")) := by
    simp only [evalNode, get_symbol, hget, resBindError]
  have hB : eval_block_statement runCmd (fuel + 2)
      (st.push_scope .FunctionBlock) [.ReturnStatement (.Identifier n)] =
      .error (.user ("'" ++ n ++ "' is not defined")) := by
    show eval_block_statement runCmd (fuel + 1 + 1) _ _ = _
    simp only [eval_block_statement, hU, resBindError]
  have hBody : evalNode runCmd (fuel + 3) (st.push_scope .FunctionBlock)
      (.BlockStatement [.ReturnStatement (.Identifier n)]) =
      .error (.user ("'" ++ n ++ "' is not defined")) := by
    show evalNode runCmd (fuel + 2 + 1) _ _ = _
    simp only [evalNode, hB, resBindError]
  have hArgs : visit_function_args runCmd (fuel + 2) st [] = .ok (st, []) := by
    show visit_function_args runCmd (fuel + 1 + 1) st [] = _
    rfl
  have hPush : push_function runCmd (fuel + 3) st [] [] =
      .ok (st.push_scope .FunctionBlock) := by
    show push_function runCmd (fuel + 2 + 1) st [] [] = _
    simp only [push_function, hArgs, resBindOk, resPure, List.zip_nil_left,
      setAll]
  have hVF : visit_function runCmd (fuel + 4) st f [] =
      .error (.user ("'" ++ n ++ "' is not defined")) := by
    show visit_function runCmd (fuel + 3 + 1) st f [] = _
    simp only [visit_function, get_symbol, hf, resBindOk, List.length_nil,
      Nat.lt_irrefl, if_false, hPush, hBody, resBindError]
  have hCall : eval_call_expression runCmd (fuel + 5) st (.Identifier f) [] =
      .error (.user ("'" ++ n ++ "' is not defined")) := by
    show eval_call_expression runCmd (fuel + 4 + 1) st _ _ = _
    simp only [eval_call_expression, hVF]
  refine ⟨hcs, ?_⟩
  show evalNode runCmd (fuel + 5 + 1) st _ = _
  simp only [evalNode, hCall, resBindError]

/-- A caller state for the C2 witness: the activation of a function `f`
(frame 1, a non-global frame) binds `y`, and `f`'s body reads `y`. -/
def callerTable : SymbolTable :=
  { scoped_table :=
      [(0, [("f", .Function "f"
          (.BlockStatement [.ReturnStatement (.Identifier "y")]) [])]),
       (1, [("y", .Number 5)])],
    scope := { scope := [[{ id := 1, kind := .FunctionBlock },
                          { id := 0, kind := .Global }]],
               counter := 2 } }

/-- Witness for C2: from `callerTable`, where `y` lives only in the
caller's non-global frame, the nested call `f()` fails with the Name
error. -/
theorem function_isolation_witness :
    evalNode (fun _ => "") 6 callerTable
      (.CallExpression (.Identifier "f") []) =
      .error (.user "'y' is not defined") := by
  refine (function_isolation (fun _ => "") 0 callerTable "y" "f" rfl
    ⟨{ id := 1, kind := .FunctionBlock }, ?_, ?_, ?_⟩ (by decide) rfl).2
  · exact List.mem_cons_self _ _
  · decide
  · exact fun h => Option.noConfusion
      ((show ((lookupA callerTable.scoped_table 1).bind
          (fun fr => lookupA fr "y")) = some (Symbol.Number 5) from rfl).symm.trans h)

/-! ### The dangling-dot numeric literal (C9) -/

/-- Once a dot has been seen, collection stops at a non-digit (or a second
dot, or the end of input). -/
theorem readDigitAux_stop (rest : List Char)
    (hrest : ∀ c, rest.head? = some c → c.isDigit = false) :
    readDigitAux rest true = ([], true) := by
  cases rest with
  | nil => rfl
  | cons c cs =>
    have hc := hrest c rfl
    by_cases hdot : c = '.'
    · simp [readDigitAux, hdot]
    · simp [readDigitAux, hdot, hc]

/-- Collection over `digits ++ '.' :: rest` (with no digit after the dot)
gathers the digits and the dot, with the `seen_dot` flag LEFT TRUE. -/
theorem readDigitAux_digits (ds rest : List Char)
    (hds : ∀ c ∈ ds, c.isDigit = true)
    (hrest : ∀ c, rest.head? = some c → c.isDigit = false) :
    readDigitAux (ds ++ '.' :: rest) false = (ds ++ ['.'], true) := by
  induction ds with
  | nil =>
    simp [readDigitAux, readDigitAux_stop rest hrest]
  | cons d ds ih =>
    have hd : d.isDigit = true := hds d (List.mem_cons_self _ _)
    have hdot : ¬ (d = '.') := fun h => by
      rw [h] at hd
      exact absurd hd (by decide)
    have ih2 := ih (fun c hc => hds c (List.mem_cons_of_mem _ hc))
    simp [readDigitAux, hdot, hd, ih2]

/-- Trimming removes exactly the trailing dot of a digit run. -/
theorem trimTrailingDots_append_dot (ds : List Char) (hne : ds ≠ [])
    (hds : ∀ c ∈ ds, c.isDigit = true) :
    trimTrailingDots (ds ++ ['.']) = ds := by
  unfold trimTrailingDots
  have h1 : (ds ++ ['.']).reverse = '.' :: ds.reverse := by simp
  rw [h1]
  have h2 : List.dropWhile (fun c => c = '.') ('.' :: ds.reverse) =
      List.dropWhile (fun c => c = '.') ds.reverse := by
    simp [List.dropWhile_cons]
  rw [h2]
  cases hrev : ds.reverse with
  | nil =>
    exact absurd (by simpa using congrArg List.reverse hrev) hne
  | cons r rs =>
    have hr : r ∈ ds := by
      have hmem : r ∈ ds.reverse := by
        rw [hrev]
        exact List.mem_cons_self _ _
      simpa using hmem
    have hrd : r.isDigit = true := hds r hr
    have hrdot : ¬ (r = '.') := fun h => by
      rw [h] at hrd
      exact absurd hrd (by decide)
    simp only [List.dropWhile_cons, hrdot, decide_False, if_false]
    calc (r :: rs).reverse = ds.reverse.reverse := by rw [hrev]
    _ = ds := List.reverse_reverse ds

/-- Parsing a pure digit run as an `f64` yields its integer value. -/
theorem parseDecimalQ_digits (ds : List Char)
    (hds : ∀ c ∈ ds, c.isDigit = true) :
    parseDecimalQ ds = (parseDigitsNat ds : ℚ) := by
  have hnd : ∀ c ∈ ds, ¬ (c = '.') := fun c hc h => by
    have hcd := hds c hc
    rw [h] at hcd
    exact absurd hcd (by decide)
  have htake : ds.takeWhile (fun c => c ≠ '.') = ds :=
    List.takeWhile_eq_self_iff.mpr (by simpa using hnd)
  have hdrop : ds.dropWhile (fun c => c ≠ '.') = [] :=
    List.dropWhile_eq_nil_iff.mpr (by simpa using hnd)
  unfold parseDecimalQ
  rw [htake, hdrop]
  simp [Rat.mkRat_one, parseDigitsNat]

/-- Claim C9 counterexample: lexing the digits of `12.` yields a `Decimal`
token (reading 2 bytes, so the dot is re-emitted), NOT an `Integer` token
as the claim states. -/
theorem dangling_dot_not_integer :
    read_digit "12.".data = (.Decimal 12, 2) ∧
    ∀ n k, read_digit "12.".data ≠ (.Integer n, k) := by
  have h : read_digit "12.".data = (.Decimal 12, 2) := by decide
  refine ⟨h, fun n k hcon => ?_⟩
  rw [h] at hcon
  simp at hcon

/-- Claim C9 as amended: for a digit run followed by a dot with no
fractional digit after it, the trailing dot is trimmed (the cursor advances
only over the digits, so the dot is re-emitted as a `Dot` token — second
conjunct), and the numeric token is a `Decimal` carrying the integer value
of the digits, because the trimming does not reset the `seen_dot` flag; on
the concrete input `12.` the token stream is `Decimal 12, Dot, EOF`. -/
theorem dangling_dot_decimal (ds rest : List Char) (hne : ds ≠ [])
    (hds : ∀ c ∈ ds, c.isDigit = true)
    (hrest : ∀ c, rest.head? = some c → c.isDigit = false) :
    read_digit (ds ++ '.' :: rest) =
      (.Decimal (parseDigitsNat ds : ℚ), ds.length) ∧
    lexPeak ('.' :: rest) = .ok (.Dot, 1) ∧
    lexTokens 20 "12.".data = .ok [.Decimal 12, .Dot, .EOF] := by
  refine ⟨?_, rfl, by decide⟩
  unfold read_digit
  rw [readDigitAux_digits ds rest hds hrest]
  simp only [trimTrailingDots_append_dot ds hne hds,
    parseDecimalQ_digits ds hds, if_true]

/-- Witness for C9's amended claim at `ds = "12"`, `rest = []`. -/
theorem dangling_dot_decimal_witness :
    read_digit "12.".data =
      (.Decimal (parseDigitsNat ['1', '2'] : ℚ), ['1', '2'].length) :=
  (dangling_dot_decimal ['1', '2'] [] (by decide) (by decide)
    (fun _ hc => Option.noConfusion hc)).1

/-! ### Operator precedence (C5) -/

/-- The `f64` power with exponent 2 is squaring. -/
theorem powQ_two (q : ℚ) : powQ q 2 = q * q := by
  rw [powQ, if_pos (by norm_num), show ((2 : ℚ)).num = 2 by norm_num,
    zpow_two]

set_option maxHeartbeats 2000000 in
/-- Claim C5: operator precedence.  `a+b*c` parses as `a+(b*c)` and
evaluates accordingly; `a^b^c` parses right-associatively as `a^(b^c)`;
`-a^2` parses with the power inside the unary minus (unary minus binds at
precedence 4, below `^`'s 5) and evaluates to `−(a^2) < 0` for `a ≠ 0`;
`(-a)^2` parses with the negation inside the power and evaluates to
`(−a)^2 > 0`. -/
theorem operator_precedence (cmds : String → Bool) (runCmd : String → String)
    (st : SymbolTable) (a b c : Nat) (ha : a ≠ 0) :
    expression cmds 20 0 (parserInit
        [.Integer a, .Plus, .Integer b, .Asterisk, .Integer c]) =
      .ok (.BinaryExpression (.Number (a : ℚ)) .Plus
        (.BinaryExpression (.Number (b : ℚ)) .Asterisk (.Number (c : ℚ))),
        { curr := .EOF, rest := [] }) ∧
    evalNode runCmd 10 st (.BinaryExpression (.Number (a : ℚ)) .Plus
        (.BinaryExpression (.Number (b : ℚ)) .Asterisk (.Number (c : ℚ)))) =
      .ok (st, some (.Number ((a : ℚ) + (b : ℚ) * (c : ℚ)))) ∧
    expression cmds 20 0 (parserInit
        [.Integer a, .Carat, .Integer b, .Carat, .Integer c]) =
      .ok (.BinaryExpression (.Number (a : ℚ)) .Carat
        (.BinaryExpression (.Number (b : ℚ)) .Carat (.Number (c : ℚ))),
        { curr := .EOF, rest := [] }) ∧
    evalNode runCmd 10 st (.BinaryExpression (.Number (a : ℚ)) .Carat
        (.BinaryExpression (.Number (b : ℚ)) .Carat (.Number (c : ℚ)))) =
      .ok (st, some (.Number (powQ (a : ℚ) (powQ (b : ℚ) (c : ℚ))))) ∧
    expression cmds 20 0 (parserInit
        [.Minus, .Integer a, .Carat, .Integer 2]) =
      .ok (.UnaryExpression
        (.BinaryExpression (.Number (a : ℚ)) .Carat (.Number (2 : ℚ))),
        { curr := .EOF, rest := [] }) ∧
    evalNode runCmd 10 st (.UnaryExpression
        (.BinaryExpression (.Number (a : ℚ)) .Carat (.Number (2 : ℚ)))) =
      .ok (st, some (.Number (-(powQ (a : ℚ) 2)))) ∧
    -(powQ (a : ℚ) 2) < 0 ∧
    expression cmds 20 0 (parserInit
        [.OpenParen, .Minus, .Integer a, .CloseParen, .Carat, .Integer 2]) =
      .ok (.BinaryExpression (.UnaryExpression (.Number (a : ℚ))) .Carat
        (.Number (2 : ℚ)), { curr := .EOF, rest := [] }) ∧
    evalNode runCmd 10 st (.BinaryExpression
        (.UnaryExpression (.Number (a : ℚ))) .Carat (.Number (2 : ℚ))) =
      .ok (st, some (.Number (powQ (-(a : ℚ)) 2))) ∧
    0 < powQ (-(a : ℚ)) 2 := by
  have hA : (0 : ℚ) < (a : ℚ) := by
    exact_mod_cast Nat.pos_of_ne_zero ha
  refine ⟨rfl, rfl, rfl, rfl, rfl, rfl, ?_, rfl, rfl, ?_⟩
  · rw [powQ_two]
    nlinarith
  · rw [powQ_two]
    nlinarith

/-- Witness for C5 at `a = b = c = 2`: the sign facts of the two parses of
squaring with unary minus. -/
theorem operator_precedence_witness :
    -(powQ ((2 : Nat) : ℚ) 2) < 0 ∧ 0 < powQ (-((2 : Nat) : ℚ)) 2 := by
  have h := operator_precedence (fun _ => false) (fun _ => "") (initState [])
    2 2 2 (by decide)
  exact ⟨h.2.2.2.2.2.2.1, h.2.2.2.2.2.2.2.2.2⟩

end Sod
